import Mathlib

/-!
Verification development for the `spider` ESP32 ambient-synth firmware
(`part_002`, the `v0_baseline` sketch).  The audio/control algorithms are
shallowly embedded: machine integers become `Nat`/`Int` (with explicit
wrap-around where the C types can overflow), `float` arithmetic becomes
exact `ℚ` (or `ℝ` where the source uses transcendental functions), and the
C control flow is translated function by function.
-/

namespace Spider

/-! ### Tiny xorshift RNG (source: `rng32`, `rand01`)

`gRng32` is a `uint32_t`; `rng32()` does `x ^= x<<13; x ^= x>>17; x ^= x<<5`
and returns the new state.  `rand01()` is `rng32() * (1/4294967296.0f)`,
i.e. the freshly advanced state scaled into `[0,1)`. -/

def UINT32_MOD : Nat := 4294967296

/-- One step of the xorshift32 generator (`rng32` in the source). -/
def rng32_next (x : Nat) : Nat :=
  let x1 := (x ^^^ (x <<< 13)) % UINT32_MOD
  let x2 := x1 ^^^ (x1 >>> 17)
  (x2 ^^^ (x2 <<< 5)) % UINT32_MOD

/-- Value of `rand01()` when the generator state before the call is `x`:
the advanced state divided by `2^32`. -/
def rand01_val (x : Nat) : ℚ :=
  (rng32_next x : ℚ) * (1 / 4294967296)

/-! ### Scales (source: `ScaleDef`, `SCALES`, `scaleDef`) -/

structure ScaleDef where
  rootPC : Nat
  degrees : List Nat
  deriving DecidableEq

/-- The builtin scale table `SCALES` (indices `SCALE_C_MINOR = 0`,
`SCALE_A_MINOR = 1`, `SCALE_D_DORIAN = 2`, `SCALE_C_LYDIAN = 3`).
Index `≥ 4` is out of bounds in C (undefined behaviour); the embedding
totalizes it with the last entry, and every theorem restricts to `s < 4`. -/
def scaleDef (s : Nat) : ScaleDef :=
  match s with
  | 0 => ⟨0, [0, 2, 4, 6, 7, 9, 11]⟩
  | 1 => ⟨9, [0, 2, 3, 5, 7, 8, 10]⟩
  | 2 => ⟨2, [0, 2, 3, 5, 7, 9, 10]⟩
  | _ => ⟨0, [0, 2, 4, 6, 7, 9, 11]⟩

/-- C `m % 12` (truncated toward zero) followed by the `+ 12` fix-up for
negatives — the `pc12` lambda inside `quantizeMidi`. -/
def pc12 (m : ℤ) : ℤ :=
  let x := Int.tmod m 12
  if x < 0 then x + 12 else x

/-- Pitch classes of a scale: `(rootPC + degrees[i]) % 12` for each degree. -/
def scalePCs (s : Nat) : List ℤ :=
  (scaleDef s).degrees.map (fun d => (((scaleDef s).rootPC : ℤ) + (d : ℤ)) % 12)

/-- `m`'s pitch class is one of the scale's degrees. -/
def scaleHasPC (s : Nat) (m : ℤ) : Prop :=
  pc12 m ∈ scalePCs s

instance (s : Nat) (m : ℤ) : Decidable (scaleHasPC s m) := by
  unfold scaleHasPC; infer_instance

/-! ### Scale quantizer (source: `quantizeMidi`) -/

/-- Faithful translation of `quantizeMidi`: scans the scale degrees keeping
`(bestAbs, bestDiff)` (initialized to `(128, 127)`), wrapping each signed
pitch-class difference into `[-6, 6]`, preferring strictly smaller absolute
difference and, on equal absolute difference, the larger signed difference
(the upward tie-break); the result is `midi + bestDiff` clamped to
`[0, 127]`. -/
def quantizeMidi (midi : ℤ) (s : Nat) : ℤ :=
  let sd := scaleDef s
  let inPC := pc12 midi
  let best := sd.degrees.foldl
    (fun (b : ℤ × ℤ) deg =>
      let targetPC : ℤ := ((sd.rootPC : ℤ) + (deg : ℤ)) % 12
      let d0 := targetPC - inPC
      let d1 := if d0 > 6 then d0 - 12 else d0
      let d2 := if d1 < -6 then d1 + 12 else d1
      let ad := if d2 ≥ 0 then d2 else -d2
      if ad < b.1 ∨ (ad = b.1 ∧ d2 > b.2) then (ad, d2) else b)
    (128, 127)
  let out := midi + best.2
  let out1 := if out < 0 then 0 else out
  if out1 > 127 then 127 else out1

/-- Spec-side shift (from the spec's words, for comparison with the code):
among all signed shifts `d ∈ [-6, 6]` that move the input pitch class onto a
scale pitch class, pick the one of minimal absolute value, ties broken
toward the upward (larger) direction.  `128` is an out-of-range sentinel
that any real candidate beats. -/
def specShift (s : Nat) (inPC : ℤ) : ℤ :=
  let cands := (List.range 13).filterMap
    (fun i =>
      let d : ℤ := (i : ℤ) - 6
      if pc12 (inPC + d) ∈ scalePCs s then some d else none)
  cands.foldl (fun b d => if |d| < |b| ∨ (|d| = |b| ∧ b < d) then d else b) 128

/-! ### Musical clock (source: `Clock16`, `clock_spt_from_bpm`, `clock_init`,
`clock_advance_block`)

`smpNow`/`nextTickAt` are `uint64_t` sample counters, `samplesPerTick` a
`uint32_t`, `step16` the step index (`& 0x0F` keeps it in `0..15`, written
here as `% 16`).  The `while` loop of `clock_advance_block` is embedded
with an explicit fuel argument; `blockSamples + 1` iterations always
suffice in the states the program reaches (proved below), so the fueled
function agrees with the C loop there. -/

structure Clock16 where
  smpNow : Nat
  nextTickAt : Nat
  samplesPerTick : Nat
  step16 : Nat
  deriving DecidableEq, Repr

/-- `clock_spt_from_bpm`: clamp `bpm` below at 30, then
`(uint32_t)((SR * 60.0f) / (bpm * 4.0f) + 0.5f)` with `SR = 44100`; the
cast of the positive float truncates, i.e. takes the floor. -/
def clock_spt_from_bpm (bpm : ℤ) : Nat :=
  let b : ℤ := if bpm < 30 then 30 else bpm
  (⌊(44100 * 60 : ℚ) / ((b : ℚ) * 4) + 1 / 2⌋).toNat

/-- `clock_init`. -/
def clock_init (bpm : ℤ) : Clock16 :=
  let spt := clock_spt_from_bpm bpm
  { smpNow := 0, nextTickAt := spt, samplesPerTick := spt, step16 := 0 }

/-- The `while (c.nextTickAt <= blockEnd)` loop body of
`clock_advance_block`, with fuel; returns the final state and the list of
step indices passed to `onStep16`, in firing order. -/
def clock_loop : Nat → Clock16 → Nat → List Nat → Clock16 × List Nat
  | 0, c, _, acc => (c, acc)
  | fuel + 1, c, blockEnd, acc =>
    if c.nextTickAt ≤ blockEnd then
      clock_loop fuel
        { c with step16 := (c.step16 + 1) % 16,
                 nextTickAt := c.nextTickAt + c.samplesPerTick }
        blockEnd (acc ++ [c.step16])
    else (c, acc)

/-- `clock_advance_block`: run the tick loop up to `blockEnd`, then set
`smpNow := blockEnd`. -/
def clock_advance_block (c : Clock16) (blockSamples : Nat) : Clock16 × List Nat :=
  let blockEnd := c.smpNow + blockSamples
  let r := clock_loop (blockSamples + 1) c blockEnd []
  ({ r.1 with smpNow := blockEnd }, r.2)

/-- Repeated `clock_advance_block` over a list of block sizes, collecting
all fired step indices in order. -/
def clock_advance_blocks (c : Clock16) : List Nat → Clock16 × List Nat
  | [] => (c, [])
  | b :: bs =>
    let r := clock_advance_block c b
    let r2 := clock_advance_blocks r.1 bs
    (r2.1, r.2 ++ r2.2)

/-- The clock state after `N` total samples have been consumed from
`clock_init`: `k = N / spt` ticks have fired. -/
def canonClock (spt N : Nat) : Clock16 :=
  { smpNow := N, nextTickAt := (N / spt + 1) * spt,
    samplesPerTick := spt, step16 := (N / spt) % 16 }

/-! ### ADSR envelope (source: `EnvState`, `ADSR`, `adsr_step`)

`float` envelope arithmetic is embedded over `ℚ`; the release-complete
epsilon is the source's `0.0008f` written as `8/10000`. -/

inductive EnvState
  | idle
  | attack
  | decay
  | sustain
  | release
  deriving DecidableEq, Repr

structure ADSR where
  a : ℚ
  d : ℚ
  s : ℚ
  r : ℚ
  env : ℚ
  st : EnvState
  gate : Bool
  deriving DecidableEq, Repr

/-- Faithful translation of `adsr_step` (the C `switch`); the `default`
branch covers `ENV_IDLE`.  The zero-guard `(x <= 0.0f) ? 1.0f : 1.0f/(x*sr)`
on each time constant is kept as written. -/
def adsr_step (sr : ℚ) (e : ADSR) : ADSR :=
  match e.st with
  | EnvState.attack =>
    let inc := if e.a ≤ 0 then 1 else 1 / (e.a * sr)
    let env := e.env + inc
    if env ≥ 1 then { e with env := 1, st := EnvState.decay }
    else { e with env := env }
  | EnvState.decay =>
    let dec := if e.d ≤ 0 then 1 else 1 / (e.d * sr)
    let env := e.env - dec * (1 - e.s)
    if env ≤ e.s then { e with env := e.s, st := EnvState.sustain }
    else { e with env := env }
  | EnvState.sustain =>
    if e.gate then e else { e with st := EnvState.release }
  | EnvState.release =>
    let dec := if e.r ≤ 0 then 1 else 1 / (e.r * sr)
    let env := e.env - dec * e.env
    if env ≤ 8 / 10000 then { e with env := 0, st := EnvState.idle }
    else { e with env := env }
  | EnvState.idle => { e with env := 0 }

/-- `n` consecutive `adsr_step` calls. -/
def adsr_iter (sr : ℚ) (n : Nat) (e : ADSR) : ADSR :=
  (adsr_step sr)^[n] e

/-! ### Pluck voice pool (source: `PluckVoice`, `PluckPool`, `pluck_init`,
`pluck_noteOn`)

`freqHz` (a cached `midiToHz(midi)`, an irrational function of the stored
`midi`) and `pan` (not touched by `pluck_noteOn`) are omitted from the
voice state; every claim about allocation concerns the remaining fields. -/

structure PluckVoice where
  active : Bool
  midi : ℤ
  phase : ℚ
  vel : ℚ
  eg : ADSR
  deriving DecidableEq, Repr

structure PluckPool where
  v : Fin 4 → PluckVoice
  gain : ℚ
  inited : Bool

/-- C++ default member initializers of `PluckVoice` / its embedded `ADSR`. -/
def defaultPluckVoice : PluckVoice :=
  { active := false, midi := 60, phase := 0, vel := 7 / 10,
    eg := { a := 3 / 1000, d := 8 / 100, s := 0, r := 6 / 100,
            env := 0, st := EnvState.idle, gate := false } }

/-- `pluck_init`: reset the gain and all four voices. -/
def pluck_init : PluckPool :=
  { v := fun _ => defaultPluckVoice, gain := 7 / 20, inited := true }

/-- One iteration of the quietest-voice scan of `pluck_noteOn`: keep
`(idx, minEnv)`, replacing it when voice `i` is strictly quieter. -/
def stealStep (p : PluckPool) (b : Option (Fin 4) × ℚ) (i : Fin 4) :
    Option (Fin 4) × ℚ :=
  if (p.v i).eg.env < b.2 then (some i, (p.v i).eg.env) else b

/-- The voice-allocation scan of `pluck_noteOn`, with the two fixed-bound
`for` loops unrolled: first inactive voice wins; otherwise run the
quietest-envelope argmin with `minEnv` initialized to `1e9f`.  `none`
corresponds to the C `idx = -1` falling through both loops (an
out-of-bounds access in C, impossible while every `env < 1e9`). -/
def pluck_allocIdx (p : PluckPool) : Option (Fin 4) :=
  if (p.v 0).active = false then some 0
  else if (p.v 1).active = false then some 1
  else if (p.v 2).active = false then some 2
  else if (p.v 3).active = false then some 3
  else (stealStep p (stealStep p (stealStep p (stealStep p (none, 1000000000) 0) 1) 2) 3).1

/-- The allocation-and-reset body of `pluck_noteOn`, applied after the
lazy-init guard. -/
def pluck_noteOn_body (scale : Nat) (p : PluckPool) (midi : ℤ) (vel : ℚ) : PluckPool :=
  match pluck_allocIdx p with
  | none => p
  | some i =>
    let q := quantizeMidi midi scale
    let velC := if vel < 0 then 0 else if vel > 1 then 1 else vel
    { p with
      v := Function.update p.v i
        { active := true, midi := q, phase := 0, vel := velC,
          eg := { (p.v i).eg with env := 0, st := EnvState.attack, gate := false } } }

/-- `pluck_noteOn(p, midi, vel)`; the global `gScale` read by the body is
passed explicitly as `scale`.  `constrain(vel, 0, 1)` is the Arduino
clamp. -/
def pluck_noteOn (scale : Nat) (p0 : PluckPool) (midi : ℤ) (vel : ℚ) : PluckPool :=
  pluck_noteOn_body scale (if p0.inited then p0 else pluck_init) midi vel

/-! ### One-pole filter, delay and reverb (source: `OnePoleLP`,
`lp_process`, `Delay`, `delay_set_space`, `delay_step`, `ReverbLite`,
`reverb_set_space`)

The `sqrtf(t)` of the two `set_space` functions has no exact `ℚ`
counterpart, so the embedded setters take the square root `k` as an
argument; theorems quantify over every `k` with `0 ≤ k` and
`k * k = space_t pct`, the defining property of the square root.  The
reverb comb/allpass delay buffers are not touched by any claim and are
omitted; the coefficient updates are kept verbatim. -/

structure OnePoleLP where
  a : ℚ
  y : ℚ
  deriving DecidableEq, Repr

/-- `lp_process`: `y += a*(x - y)`, returning updated state and output. -/
def lp_process (f : OnePoleLP) (x : ℚ) : OnePoleLP × ℚ :=
  let y := f.y + f.a * (x - f.y)
  ({ f with y := y }, y)

inductive DelayMode
  | eighth
  | quarter
  deriving DecidableEq, Repr

/-- `DELAY_MAX_SAMPLES` (the ring buffer is statically this size and
`dl.size` is always `DELAY_MAX_SAMPLES`). -/
def DELAY_MAX : Nat := 32768

structure Delay where
  buf : Fin 32768 → ℤ
  w : Nat
  dSamp : Nat
  tone : OnePoleLP
  baseSend : ℚ
  baseWet : ℚ
  send : ℚ
  wet : ℚ
  fb : ℚ
  bpmCached : ℤ
  mode : DelayMode
  inited : Bool

/-- C cast of a float to a signed integer: truncation toward zero. -/
def ratTrunc (x : ℚ) : ℤ :=
  if 0 ≤ x then ⌊x⌋ else -⌊-x⌋

/-- The clamped space fraction `t` computed identically at the top of
`delay_set_space` and `reverb_set_space`:
`(spacePct <= 0) ? 0 : (spacePct >= 100 ? 1 : spacePct * 0.01)`. -/
def space_t (pct : ℤ) : ℚ :=
  if pct ≤ 0 then 0 else if pct ≥ 100 then 1 else (pct : ℚ) * (1 / 100)

/-- `delay_set_space` (parameter update part), with `k = sqrtf(space_t pct)`
passed in: `send = 0.75k`, `wet = 0.55k`, `fb = 0.55k` capped at `0.6`;
live values are reset to the base values.  (The source function then also
calls `reverb_set_space` on the global reverb, embedded separately.) -/
def delay_set_space_k (dl : Delay) (k : ℚ) : Delay :=
  let send := (75 / 100) * k
  let wet := (55 / 100) * k
  let fb0 := (55 / 100) * k
  let fb := if fb0 > 6 / 10 then 6 / 10 else fb0
  { dl with baseSend := send, baseWet := wet, fb := fb, send := send, wet := wet }

/-- The tap read of `delay_step`: `buf[(w + size - dSamp) % size]` scaled
back to a float by `1/32767`. -/
def delay_read (dl : Delay) : ℚ :=
  (dl.buf ⟨(dl.w + 32768 - dl.dSamp) % 32768, Nat.mod_lt _ (by norm_num)⟩ : ℚ) * (1 / 32767)

/-- The value `delay_step` writes (before int16 quantization):
`dry*send + fb*lowpassed`, clamped to `[-1, 1]` by the two `if`s. -/
def delay_writeVal (dl : Delay) (dry : ℚ) : ℚ :=
  let fbSample := (lp_process dl.tone (delay_read dl)).2
  let toWrite0 := dry * dl.send + fbSample * dl.fb
  let toWrite1 := if toWrite0 > 1 then 1 else toWrite0
  if toWrite1 < -1 then -1 else toWrite1

/-- `delay_step`: read the tap `dSamp` behind the write head, low-pass it,
mix `dry*send + fb*filtered`, clamp to `[-1,1]`, quantize to int16 and
store at the write head, advance the write head (wrapping at the buffer
size).  Returns the updated state and the wet tap output. -/
def delay_step (dl : Delay) (dry : ℚ) : Delay × ℚ :=
  if dl.inited = false then (dl, 0)
  else
    ({ dl with
        buf := Function.update dl.buf ⟨dl.w % 32768, Nat.mod_lt _ (by norm_num)⟩
          (ratTrunc (delay_writeVal dl dry * 32767)),
        tone := (lp_process dl.tone (delay_read dl)).1,
        w := if dl.w + 1 ≥ 32768 then 0 else dl.w + 1 },
     delay_read dl)

structure CombLite where
  fb : ℚ
  damp : ℚ
  deriving DecidableEq, Repr

structure ReverbLite where
  comb : Fin 4 → CombLite
  baseSend : ℚ
  baseWet : ℚ
  send : ℚ
  wet : ℚ

/-- `reverb_set_space` with `k = sqrtf(space_t pct)` passed in:
`send = 0.70k`, `wet = 0.35k`, comb feedback `0.45 + 0.27k` capped at
`0.75`, comb damping `0.15 + 0.20k`; live values reset to base values. -/
def reverb_set_space_k (rv : ReverbLite) (k : ℚ) : ReverbLite :=
  let send := (70 / 100) * k
  let wet := (35 / 100) * k
  let fb0 := 45 / 100 + (27 / 100) * k
  let fb := if fb0 > 75 / 100 then 75 / 100 else fb0
  let damp := 15 / 100 + (20 / 100) * k
  { rv with comb := fun _ => { fb := fb, damp := damp },
            baseSend := send, baseWet := wet, send := send, wet := wet }

/-- The `-3 dB` center constant `CTR = 0.70710678f` of the render loop. -/
def CTRq : ℚ := 70710678 / 100000000

/-- The wet/dry mix line of the render loop (`loop()`):
`wetSum = delay.wet*wetTap + reverb.wet*wetRev; out = dry + wetSum*CTR`. -/
def mix_out (dryMono wetTap wetRev wetDelay wetReverb : ℚ) : ℚ :=
  dryMono + (wetDelay * wetTap + wetReverb * wetRev) * CTRq

/-! ### Scene crossfade (source: `SceneTargets`, `scene_update`, lines
1019-1062)

The interpolation ramp of `scene_update` is embedded over `ℝ` because the
cutoff is log-interpolated through `logf`/`expf`.  Scheduling, random
target picking and the TFT banner are outside every claim; the embedded
`scene_apply` is the "If active, apply crossfade ramps" block as a function
of the snapshotted start values, the chosen targets, and the absolute
sample times.  The caller maintains `tStart ≤ now` (both are the running
`uint64` sample counter), which the theorems assume. -/

structure SceneVals where
  scale : Nat
  triMix : ℝ
  lpfCutHz : ℝ
  spacePercent : ℤ
  delayMode : DelayMode
  tempoBPM : ℤ

/-- The `lerp` lambda of `scene_update`. -/
def lerpR (a b t : ℝ) : ℝ := a + (b - a) * t

/-- The `smooth` lambda of `scene_update`: clamp to `[0,1]`, then the
smoothstep cubic `t*t*(3 - 2*t)`. -/
def smoothstepC (t : ℝ) : ℝ :=
  let t1 := max 0 (min 1 t)
  t1 * t1 * (3 - 2 * t1)

/-- The `expLerp` lambda of `scene_update`: log-space interpolation
`exp(lerp(log a, log b, t))`. -/
noncomputable def expLerp (a b t : ℝ) : ℝ :=
  Real.exp (lerpR (Real.log a) (Real.log b) t)

open Classical in
/-- C cast of a (real-valued) float to `int`: truncation toward zero. -/
noncomputable def truncIntR (x : ℝ) : ℤ :=
  if 0 ≤ x then ⌊x⌋ else -⌊-x⌋

/-- The elapsed fraction `t` of the crossfade: `num/den` where `num` is
`now - tStart` capped at the full duration and `den = tEnd - tStart`; `0`
when the window is degenerate (`tEnd ≤ tStart`). -/
noncomputable def scene_t (tStart tEnd now : Nat) : ℝ :=
  if tStart < tEnd then ((min now tEnd - tStart : ℕ) : ℝ) / ((tEnd - tStart : ℕ) : ℝ)
  else 0

open Classical in
/-- The crossfade ramp block of `scene_update`: returns the applied
parameter values together with the `gScene.active` flag after the update
(`False` exactly when the fade has completed, `t ≥ 1`).  `start.scale` and
`start.delayMode` play the role of the live `gScale` / `gDelay.mode`
values still in effect before the switch thresholds. -/
noncomputable def scene_apply (start target : SceneVals) (tStart tEnd now : Nat) :
    SceneVals × Prop :=
  let t := scene_t tStart tEnd now
  let e := smoothstepC t
  let tri := lerpR start.triMix target.triMix e
  let cut := expLerp start.lpfCutHz target.lpfCutHz e
  let spc0 := truncIntR (lerpR (start.spacePercent : ℝ) (target.spacePercent : ℝ) e + 1 / 2)
  let spc1 := if spc0 < 0 then 0 else spc0
  let spc := if spc1 > 100 then 100 else spc1
  let bpm0 := truncIntR (lerpR (start.tempoBPM : ℝ) (target.tempoBPM : ℝ) e + 1 / 2)
  let bpm1 := if bpm0 < 30 then 30 else bpm0
  let bpm := if bpm1 > 240 then 240 else bpm1
  let sc := if (2 / 10 : ℝ) ≤ e then target.scale else start.scale
  let dm := if (8 / 10 : ℝ) ≤ e then target.delayMode else start.delayMode
  ({ scale := sc, triMix := tri, lpfCutHz := cut, spacePercent := spc,
     delayMode := dm, tempoBPM := bpm }, ¬ (1 ≤ t))

/-! ### Ambient note picker (source: `pickAmbientNote`)

The `static int last` is passed in and the updated value returned; the
global RNG state is threaded explicitly.  Return value: (note, new `last`,
new RNG state). -/

/-- The note pool built by `pickAmbientNote`: for each octave `2..6`,
`base = octave*12 + rootPC`, plus each scale degree, kept only if within
`[36, 96]`, in loop order. -/
def buildPool (s : Nat) : List ℤ :=
  let octaves : List Nat := (List.range 5).map (fun o => o + 2)
  octaves.flatMap (fun oct =>
    (scaleDef s).degrees.filterMap (fun d =>
      let m : ℤ := (oct : ℤ) * 12 + ((scaleDef s).rootPC : ℤ) + (d : ℤ)
      if 36 ≤ m ∧ m ≤ 96 then some m else none))

/-- Faithful translation of `pickAmbientNote`: draw `pool[rng32() % n]`;
with probability `0.10` return `last` unchanged (hold); with probability
`0.15` add a wide interval (`+7` or `-5` on RNG parity); if the candidate
is within `< 3` semitones of `last`, add `+7` or `-5` again; clamp to
`[36, 96]`, re-quantize to the scale, and record the result as `last`.
`getD _ 0` totalizes the C `pool[...]` access (the pool is never empty
for the builtin scales). -/
def pickAmbientNote (s : Nat) (last : ℤ) (g : Nat) : ℤ × ℤ × Nat :=
  let pool := buildPool s
  let n := pool.length
  let g1 := rng32_next g
  let cand0 := pool.getD (g1 % n) 0
  let g2 := rng32_next g1
  if (g2 : ℚ) * (1 / 4294967296) < 1 / 10 then (last, last, g2)
  else
    let g3 := rng32_next g2
    let jr :=
      if (g3 : ℚ) * (1 / 4294967296) < 15 / 100 then
        let g4 := rng32_next g3
        (cand0 + (if g4 % 2 = 1 then 7 else -5), g4)
      else (cand0, g3)
    let nr :=
      if |jr.1 - last| < 3 then
        let g5 := rng32_next jr.2
        (jr.1 + (if g5 % 2 = 1 then 7 else -5), g5)
      else jr
    let c1 := if nr.1 < 36 then 36 else nr.1
    let c2 := if c1 > 96 then 96 else c1
    let q := quantizeMidi c2 s
    (q, q, nr.2)

/-- Spec-side pool (from the claim's words): all in-scale MIDI notes in
the register `36..96`, ascending. -/
def allScalePool (s : Nat) : List ℤ :=
  ((List.range 61).map (fun i => (36 : ℤ) + (i : ℤ))).filter (fun m => decide (scaleHasPC s m))

/-! ### Scheduler wobble state (source: `onStep16`, lines 446-471)

`onStep16` keeps `static uint16_t lastBar = 0` and `static float wob =
1.0f`, and recomputes `wob = 0.9 + 0.2*rand01()` whenever `bar = step/16`
differs from `lastBar`.  The state triple (lastBar, wob, RNG) and its
per-call update are embedded here. -/

structure WobbleState where
  lastBar : Nat
  wob : ℚ
  rng : Nat
  deriving DecidableEq, Repr

/-- The wobble-maintenance prefix of `onStep16` for one call with step
index `step`. -/
def onStep16_wobble (st : WobbleState) (step : Nat) : WobbleState :=
  let bar := step / 16
  if bar ≠ st.lastBar then
    let g := rng32_next st.rng
    { lastBar := bar, wob := 9 / 10 + (2 / 10) * ((g : ℚ) * (1 / 4294967296)), rng := g }
  else st

/-- The initial static state of `onStep16`: `lastBar = 0`, `wob = 1.0`. -/
def wobbleInit (g : Nat) : WobbleState :=
  { lastBar := 0, wob := 1, rng := g }

/-! ### Concrete sample states used by witnesses -/

/-- A released ADSR sample state for concrete witnesses. -/
def adsrSample : ADSR :=
  { a := 1, d := 1, s := 1 / 2, r := 1, env := 1 / 2,
    st := EnvState.release, gate := false }

/-- A fully active pool (voice 1 quietest) for concrete witnesses. -/
def pluckSample : PluckPool :=
  { inited := true, gain := 7 / 20,
    v := fun i =>
      { active := true, midi := 60, phase := 0, vel := 7 / 10,
        eg := { a := 3 / 1000, d := 8 / 100, s := 0, r := 6 / 100,
                env := if i = 1 then 1 / 10 else 3 / 10,
                st := EnvState.decay, gate := false } } }

/-- A zeroed, initialized delay line for concrete witnesses. -/
def delaySample : Delay :=
  { buf := fun _ => 0, w := 0, dSamp := 22050,
    tone := { a := 1 / 10, y := 0 }, baseSend := 0, baseWet := 0,
    send := 0, wet := 0, fb := 0, bpmCached := 104,
    mode := DelayMode.quarter, inited := true }

/-- A quiescent reverb for concrete witnesses. -/
def reverbSample : ReverbLite :=
  { comb := fun _ => { fb := 62 / 100, damp := 22 / 100 },
    baseSend := 0, baseWet := 0, send := 0, wet := 0 }

/-- Concrete crossfade endpoints for witnesses. -/
noncomputable def sceneStartSample : SceneVals :=
  { scale := 1, triMix := 18 / 100, lpfCutHz := 1200, spacePercent := 45,
    delayMode := DelayMode.quarter, tempoBPM := 104 }

/-- Concrete crossfade targets for witnesses. -/
noncomputable def sceneTargetSample : SceneVals :=
  { scale := 3, triMix := 40 / 100, lpfCutHz := 400, spacePercent := 30,
    delayMode := DelayMode.eighth, tempoBPM := 110 }

/-! ## Theorems -/

theorem spt_pos (bpm : ℤ) (hbpm : bpm ≤ 240) : 1 ≤ clock_spt_from_bpm bpm := by
  have hdef : clock_spt_from_bpm bpm =
      (⌊(44100 * 60 : ℚ) / ((((if bpm < 30 then (30 : ℤ) else bpm) : ℤ) : ℚ) * 4) + 1 / 2⌋).toNat := by
    rfl
  rw [hdef]
  set b : ℤ := if bpm < 30 then 30 else bpm with hb
  have hb30 : 30 ≤ b := by rw [hb]; split <;> omega
  have hb240 : b ≤ 240 := by rw [hb]; split <;> omega
  have hbq : (30 : ℚ) ≤ (b : ℚ) := by exact_mod_cast hb30
  have hbq' : (b : ℚ) ≤ 240 := by exact_mod_cast hb240
  have hpos : (0 : ℚ) < (b : ℚ) * 4 := by linarith
  have hdiv : (1 / 2 : ℚ) ≤ (44100 * 60 : ℚ) / ((b : ℚ) * 4) := by
    rw [le_div_iff₀ hpos]; linarith
  have h1 : (1 : ℚ) ≤ (44100 * 60 : ℚ) / ((b : ℚ) * 4) + 1 / 2 := by linarith
  have hfl : (1 : ℤ) ≤ ⌊(44100 * 60 : ℚ) / ((b : ℚ) * 4) + 1 / 2⌋ := by
    rw [Int.le_floor]; exact_mod_cast h1
  omega

theorem clock_loop_succ (fuel : Nat) (c : Clock16) (blockEnd : Nat) (acc : List Nat) :
    clock_loop (fuel + 1) c blockEnd acc =
      if c.nextTickAt ≤ blockEnd then
        clock_loop fuel
          { c with step16 := (c.step16 + 1) % 16,
                   nextTickAt := c.nextTickAt + c.samplesPerTick }
          blockEnd (acc ++ [c.step16])
      else (c, acc) := rfl

theorem clock_loop_canon (spt : Nat) (hspt : 0 < spt) :
    ∀ (fuel k N : Nat) (acc : List Nat) (smp : Nat),
      k ≤ N / spt → N / spt - k < fuel →
      clock_loop fuel ⟨smp, (k + 1) * spt, spt, k % 16⟩ N acc
        = (⟨smp, (N / spt + 1) * spt, spt, (N / spt) % 16⟩,
           acc ++ (List.range' k (N / spt - k)).map (· % 16)) := by
  intro fuel
  induction fuel with
  | zero => intro k N acc smp hk hfuel; omega
  | succ fuel ih =>
    intro k N acc smp hk hfuel
    rw [clock_loop_succ]
    by_cases h : (k + 1) * spt ≤ N
    · have hcond : (⟨smp, (k + 1) * spt, spt, k % 16⟩ : Clock16).nextTickAt ≤ N := h
      rw [if_pos hcond]
      have hk1 : k + 1 ≤ N / spt := (Nat.le_div_iff_mul_le hspt).mpr h
      have e1 : (k + 1) * spt + spt = (k + 1 + 1) * spt := by ring
      have e2 : (k % 16 + 1) % 16 = (k + 1) % 16 := by omega
      show clock_loop fuel ⟨smp, (k + 1) * spt + spt, spt, (k % 16 + 1) % 16⟩ N
          (acc ++ [k % 16]) = _
      rw [e1, e2, ih (k + 1) N (acc ++ [k % 16]) smp hk1 (by omega)]
      have e3 : N / spt - k = (N / spt - (k + 1)) + 1 := by omega
      rw [e3, List.range'_succ]
      simp
    · have hcond : ¬ (⟨smp, (k + 1) * spt, spt, k % 16⟩ : Clock16).nextTickAt ≤ N := h
      rw [if_neg hcond]
      have hle : N / spt ≤ k := by
        have h2 : N < (k + 1) * spt := by omega
        have := (Nat.div_lt_iff_lt_mul hspt).mpr h2
        omega
      have hk2 : k = N / spt := by omega
      rw [← hk2]
      simp

theorem clock_advance_block_canon (spt : Nat) (hspt : 0 < spt) (N b : Nat) :
    clock_advance_block (canonClock spt N) b
      = (canonClock spt (N + b),
         (List.range' (N / spt) ((N + b) / spt - N / spt)).map (· % 16)) := by
  have hmono : N / spt ≤ (N + b) / spt := Nat.div_le_div_right (Nat.le_add_right N b)
  have hbound : (N + b) / spt ≤ N / spt + b := by
    have h1 : N + b ≤ N + b * spt := by
      have := Nat.le_mul_of_pos_right b hspt
      omega
    have h2 : (N + b * spt) / spt = N / spt + b := Nat.add_mul_div_right N b hspt
    have h3 := Nat.div_le_div_right (c := spt) h1
    omega
  show ({ (clock_loop (b + 1) (canonClock spt N) (N + b) []).1 with smpNow := N + b },
        (clock_loop (b + 1) (canonClock spt N) (N + b) []).2) = _
  have hc : canonClock spt N = (⟨N, (N / spt + 1) * spt, spt, (N / spt) % 16⟩ : Clock16) := rfl
  rw [hc, clock_loop_canon spt hspt (b + 1) (N / spt) (N + b) [] N hmono (by omega)]
  simp [canonClock]

theorem clock_advance_blocks_canon (spt : Nat) (hspt : 0 < spt) :
    ∀ (bs : List Nat) (N : Nat),
      clock_advance_blocks (canonClock spt N) bs
        = (canonClock spt (N + bs.sum),
           (List.range' (N / spt) ((N + bs.sum) / spt - N / spt)).map (· % 16)) := by
  intro bs
  induction bs with
  | nil => intro N; simp [clock_advance_blocks]
  | cons b bs ih =>
    intro N
    show ((clock_advance_blocks (clock_advance_block (canonClock spt N) b).1 bs).1,
          (clock_advance_block (canonClock spt N) b).2 ++
            (clock_advance_blocks (clock_advance_block (canonClock spt N) b).1 bs).2) = _
    rw [clock_advance_block_canon spt hspt N b]
    rw [ih (N + b)]
    have hsum : N + b + bs.sum = N + (b :: bs).sum := by simp; ring
    have hmono1 : N / spt ≤ (N + b) / spt := Nat.div_le_div_right (Nat.le_add_right N b)
    have hmono2 : (N + b) / spt ≤ (N + (b :: bs).sum) / spt := by
      apply Nat.div_le_div_right
      simp
    rw [hsum]
    refine Prod.ext rfl ?_
    show (List.range' (N / spt) ((N + b) / spt - N / spt)).map (· % 16) ++
          (List.range' ((N + b) / spt) ((N + (b :: bs).sum) / spt - (N + b) / spt)).map (· % 16)
        = (List.range' (N / spt) ((N + (b :: bs).sum) / spt - N / spt)).map (· % 16)
    rw [← List.map_append]
    have happ := List.range'_append (N / spt) ((N + b) / spt - N / spt)
      ((N + (b :: bs).sum) / spt - (N + b) / spt) 1
    simp only [one_mul] at happ
    have e1 : N / spt + ((N + b) / spt - N / spt) = (N + b) / spt := by omega
    rw [e1] at happ
    rw [happ]
    have e2 : (N + (b :: bs).sum) / spt - (N + b) / spt + ((N + b) / spt - N / spt)
        = (N + (b :: bs).sum) / spt - N / spt := by omega
    rw [e2]

theorem clock_loop_fuel_le :
    ∀ (fuel : Nat) (c : Clock16) (blockEnd : Nat) (acc : List Nat) (fuel2 : Nat),
      0 < c.samplesPerTick → blockEnd + 1 - c.nextTickAt ≤ fuel → fuel ≤ fuel2 →
      clock_loop fuel2 c blockEnd acc = clock_loop fuel c blockEnd acc := by
  intro fuel
  induction fuel with
  | zero =>
    intro c blockEnd acc fuel2 hspt hm hle
    have hgt : ¬ c.nextTickAt ≤ blockEnd := by omega
    cases fuel2 with
    | zero => rfl
    | succ f2 => rw [clock_loop_succ, if_neg hgt]; rfl
  | succ fuel ih =>
    intro c blockEnd acc fuel2 hspt hm hle
    obtain ⟨f2, rfl⟩ : ∃ f2, fuel2 = f2 + 1 := ⟨fuel2 - 1, by omega⟩
    rw [clock_loop_succ, clock_loop_succ]
    by_cases h : c.nextTickAt ≤ blockEnd
    · rw [if_pos h, if_pos h]
      exact ih _ blockEnd _ f2 hspt (by simp only []; omega) (by omega)
    · rw [if_neg h, if_neg h]

theorem clock_loop_len :
    ∀ (fuel : Nat) (c : Clock16) (blockEnd : Nat) (acc : List Nat),
      0 < c.samplesPerTick →
      ((clock_loop fuel c blockEnd acc).2).length
        ≤ acc.length + (blockEnd + 1 - c.nextTickAt) := by
  intro fuel
  induction fuel with
  | zero => intro c blockEnd acc hspt; simp [clock_loop]
  | succ fuel ih =>
    intro c blockEnd acc hspt
    rw [clock_loop_succ]
    by_cases h : c.nextTickAt ≤ blockEnd
    · rw [if_pos h]
      have hrec := ih
        { c with step16 := (c.step16 + 1) % 16,
                 nextTickAt := c.nextTickAt + c.samplesPerTick }
        blockEnd (acc ++ [c.step16]) hspt
      simp only [List.length_append, List.length_cons, List.length_nil] at hrec
      omega
    · rw [if_neg h]; simp

/-- C1: starting from `clock_init` at a fixed BPM, running
`clock_advance_block` over any sequence of block sizes totalling `N`
samples fires exactly `⌊N / samplesPerTick⌋` `onStep16` events, whose step
indices are `0 % 16, 1 % 16, 2 % 16, …` — i.e. they increase by one modulo
16 in firing order — and the fired sequence depends only on the total `N`,
not on how it is chunked into blocks. -/
theorem clock_chunking_invariant (bpm : ℤ) (hbpm : bpm ≤ 240) (bs : List Nat) :
    (clock_advance_blocks (clock_init bpm) bs).2
      = (List.range (bs.sum / clock_spt_from_bpm bpm)).map (· % 16) := by
  have hspt : 0 < clock_spt_from_bpm bpm := spt_pos bpm hbpm
  have hinit : clock_init bpm = canonClock (clock_spt_from_bpm bpm) 0 := by
    unfold clock_init canonClock
    simp
  rw [hinit, clock_advance_blocks_canon _ hspt bs 0]
  simp [List.range_eq_range']

/-- Witness for C1 at BPM 104 with total 8000 samples chunked as
3000 + 5000. -/
theorem clock_chunking_invariant_witness :
    (104 : ℤ) ≤ 240 ∧
    (clock_advance_blocks (clock_init 104) [3000, 5000]).2
      = (List.range ([3000, 5000].sum / clock_spt_from_bpm 104)).map (· % 16) :=
  ⟨by decide, clock_chunking_invariant 104 (by decide) [3000, 5000]⟩

/-- C10: `clock_spt_from_bpm` clamps its argument below at 30 and returns
a `samplesPerTick` of at least 1 on the whole supported tempo domain (any
`bpm ≤ 240`, the `clampTempo` upper bound; smaller values are clamped up
to 30 by the function itself); consequently the `while` loop of
`clock_advance_block` strictly advances `nextTickAt` and terminates for
every finite block: its fueled embedding is independent of the fuel once
the fuel reaches the explicit bound `blockEnd + 1 - nextTickAt`, and it
fires at most that many `onStep16` events. -/
theorem clock_termination (bpm : ℤ) (hbpm : bpm ≤ 240) :
    1 ≤ clock_spt_from_bpm bpm ∧
    ∀ (c : Clock16) (blockEnd : Nat) (acc : List Nat),
      c.samplesPerTick = clock_spt_from_bpm bpm →
      (∀ fuel1 fuel2 : Nat,
        blockEnd + 1 - c.nextTickAt ≤ fuel1 → blockEnd + 1 - c.nextTickAt ≤ fuel2 →
        clock_loop fuel1 c blockEnd acc = clock_loop fuel2 c blockEnd acc) ∧
      (∀ fuel : Nat,
        ((clock_loop fuel c blockEnd acc).2).length
          ≤ acc.length + (blockEnd + 1 - c.nextTickAt)) := by
  have hspt := spt_pos bpm hbpm
  refine ⟨hspt, ?_⟩
  intro c blockEnd acc hc
  have hpos : 0 < c.samplesPerTick := by omega
  constructor
  · intro fuel1 fuel2 h1 h2
    have e1 := clock_loop_fuel_le (blockEnd + 1 - c.nextTickAt) c blockEnd acc fuel1
      hpos le_rfl h1
    have e2 := clock_loop_fuel_le (blockEnd + 1 - c.nextTickAt) c blockEnd acc fuel2
      hpos le_rfl h2
    rw [e1, e2]
  · intro fuel
    exact clock_loop_len fuel c blockEnd acc hpos

/-- Witness for C10 at BPM 104. -/
theorem clock_termination_witness :
    1 ≤ clock_spt_from_bpm 104 ∧
    ∀ (c : Clock16) (blockEnd : Nat) (acc : List Nat),
      c.samplesPerTick = clock_spt_from_bpm 104 →
      (∀ fuel1 fuel2 : Nat,
        blockEnd + 1 - c.nextTickAt ≤ fuel1 → blockEnd + 1 - c.nextTickAt ≤ fuel2 →
        clock_loop fuel1 c blockEnd acc = clock_loop fuel2 c blockEnd acc) ∧
      (∀ fuel : Nat,
        ((clock_loop fuel c blockEnd acc).2).length
          ≤ acc.length + (blockEnd + 1 - c.nextTickAt)) :=
  clock_termination 104 (by decide)

set_option maxRecDepth 10000 in
set_option maxHeartbeats 2000000 in
/-- C2: for every MIDI note in `0..127` and each of the four builtin
scales, `quantizeMidi` returns a note whose pitch class is in the scale's
degree set, lying at most 6 semitones from the input, and the note equals
the input shifted by the signed pitch-class distance of minimal absolute
value (wrapping at 6 semitones, ties broken upward) and clamped to
`[0, 127]`. -/
theorem quantizeMidi_correct : ∀ m : Nat, m < 128 → ∀ s : Nat, s < 4 →
    scaleHasPC s (quantizeMidi (m : ℤ) s) ∧
    |quantizeMidi (m : ℤ) s - (m : ℤ)| ≤ 6 ∧
    quantizeMidi (m : ℤ) s = min 127 (max 0 ((m : ℤ) + specShift s (pc12 (m : ℤ)))) := by
  decide

/-- Witness for C2 at MIDI note 61 in the A-minor scale. -/
theorem quantizeMidi_correct_witness :
    (61 : Nat) < 128 ∧ (1 : Nat) < 4 ∧
    (scaleHasPC 1 (quantizeMidi ((61 : Nat) : ℤ) 1) ∧
     |quantizeMidi ((61 : Nat) : ℤ) 1 - ((61 : Nat) : ℤ)| ≤ 6 ∧
     quantizeMidi ((61 : Nat) : ℤ) 1
       = min 127 (max 0 (((61 : Nat) : ℤ) + specShift 1 (pc12 ((61 : Nat) : ℤ))))) :=
  ⟨by decide, by decide, quantizeMidi_correct 61 (by decide) 1 (by decide)⟩

theorem adsr_release_invariant (sr : ℚ) (hsr : 0 < sr) (e : ADSR)
    (hst : e.st = EnvState.release) (hr : 0 < e.r)
    (h0 : 0 ≤ e.env) (h1 : e.env ≤ 1) :
    ∀ n : Nat,
      ((adsr_iter sr n e).st = EnvState.idle ∧ (adsr_iter sr n e).env = 0) ∨
      ((adsr_iter sr n e).st = EnvState.release ∧
       (adsr_iter sr n e).r = e.r ∧
       0 ≤ (adsr_iter sr n e).env ∧ (adsr_iter sr n e).env ≤ 1 ∧
       (adsr_iter sr n e).env * (1 + (n : ℚ) * (1 / (e.r * sr))) ≤ 1 ∧
       (1 ≤ n → 8 / 10000 < (adsr_iter sr n e).env)) := by
  have hkpos : 0 < 1 / (e.r * sr) := by positivity
  intro n
  induction n with
  | zero =>
    right
    refine ⟨hst, rfl, h0, h1, by simpa using h1, by omega⟩
  | succ n ih =>
    have hstep : adsr_iter sr (n + 1) e = adsr_step sr (adsr_iter sr n e) := by
      unfold adsr_iter
      exact Function.iterate_succ_apply' (adsr_step sr) n e
    rcases ih with ⟨hi, hz⟩ | ⟨hrel, hrr, he0, he1, hbound, hlate⟩
    · left
      rw [hstep]
      simp [adsr_step, hi, hz]
    · set E := adsr_iter sr n e with hE
      have hrE : ¬ E.r ≤ 0 := by rw [hrr]; linarith
      have hkE : 1 / (E.r * sr) = 1 / (e.r * sr) := by rw [hrr]
      rw [hstep]
      simp only [adsr_step, hrel, if_neg hrE]
      rw [hrr]
      by_cases hend : E.env - 1 / (e.r * sr) * E.env ≤ 8 / 10000
      · left
        rw [if_pos hend]
        exact ⟨rfl, rfl⟩
      · right
        rw [if_neg hend]
        refine ⟨rfl, rfl, ?_, ?_, ?_, ?_⟩
        · simp only []
          linarith [not_le.mp hend]
        · simp only []
          have hgt : 8 / 10000 < E.env - 1 / (e.r * sr) * E.env := not_le.mp hend
          by_cases hz : E.env = 0
          · rw [hz] at hgt; linarith
          · have hpos : 0 < E.env := lt_of_le_of_ne he0 (Ne.symm hz)
            nlinarith
        · simp only []
          set k := 1 / (e.r * sr) with hk
          have hcast : ((n + 1 : Nat) : ℚ) = (n : ℚ) + 1 := by push_cast; ring
          rw [hcast]
          have key : (1 - k) * (1 + ((n : ℚ) + 1) * k) ≤ 1 + (n : ℚ) * k := by
            nlinarith [mul_nonneg (by positivity : (0 : ℚ) ≤ (n : ℚ) + 1) (sq_nonneg k)]
          have step1 : E.env * ((1 - k) * (1 + ((n : ℚ) + 1) * k))
              ≤ E.env * (1 + (n : ℚ) * k) := by
            exact mul_le_mul_of_nonneg_left key he0
          calc (E.env - k * E.env) * (1 + ((n : ℚ) + 1) * k)
              = E.env * ((1 - k) * (1 + ((n : ℚ) + 1) * k)) := by ring
            _ ≤ E.env * (1 + (n : ℚ) * k) := step1
            _ ≤ 1 := hbound
        · intro _
          simp only []
          exact not_le.mp hend

/-- C4: for any ADSR with positive attack, decay and release time
constants, sustain level in `[0, 1]`, positive sample rate and current
envelope in `[0, 1]`, one `adsr_step` keeps the envelope inside `[0, 1]`;
and once the state is Release the envelope reaches exactly 0 with the
state Idle within `⌈1249 · release · sampleRate⌉ + 1` steps — a bound
proportional to `release_time × sampleRate`. -/
theorem adsr_bounded_and_release_terminates (sr : ℚ) (e : ADSR)
    (hsr : 0 < sr) (ha : 0 < e.a) (hd : 0 < e.d)
    (hs0 : 0 ≤ e.s) (hs1 : e.s ≤ 1) (hr : 0 < e.r)
    (henv0 : 0 ≤ e.env) (henv1 : e.env ≤ 1) :
    (0 ≤ (adsr_step sr e).env ∧ (adsr_step sr e).env ≤ 1) ∧
    (e.st = EnvState.release →
      (adsr_iter sr (⌈(1249 : ℚ) * e.r * sr⌉₊ + 1) e).st = EnvState.idle ∧
      (adsr_iter sr (⌈(1249 : ℚ) * e.r * sr⌉₊ + 1) e).env = 0) := by
  constructor
  · rcases hst : e.st with _ | _ | _ | _ | _
    · simp [adsr_step, hst]
    · have hga : ¬ e.a ≤ 0 := by linarith
      have hinc : 0 < 1 / (e.a * sr) := by positivity
      simp only [adsr_step, hst, if_neg hga]
      by_cases hc : e.env + 1 / (e.a * sr) ≥ 1
      · rw [if_pos hc]; constructor <;> norm_num
      · rw [if_neg hc]
        push_neg at hc
        constructor
        · simp only []; linarith
        · simp only []; linarith
    · have hgd : ¬ e.d ≤ 0 := by linarith
      have hdec : 0 < 1 / (e.d * sr) := by positivity
      simp only [adsr_step, hst, if_neg hgd]
      by_cases hc : e.env - 1 / (e.d * sr) * (1 - e.s) ≤ e.s
      · rw [if_pos hc]; exact ⟨hs0, hs1⟩
      · rw [if_neg hc]
        push_neg at hc
        have hm : 0 ≤ 1 / (e.d * sr) * (1 - e.s) := by
          apply mul_nonneg (le_of_lt hdec); linarith
        constructor
        · simp only []; linarith
        · simp only []; linarith
    · simp only [adsr_step, hst]
      by_cases hg : e.gate
      · rw [if_pos hg]; exact ⟨henv0, henv1⟩
      · rw [if_neg hg]; exact ⟨henv0, henv1⟩
    · have hgr : ¬ e.r ≤ 0 := by linarith
      have hdec : 0 < 1 / (e.r * sr) := by positivity
      simp only [adsr_step, hst, if_neg hgr]
      by_cases hc : e.env - 1 / (e.r * sr) * e.env ≤ 8 / 10000
      · rw [if_pos hc]; constructor <;> norm_num
      · rw [if_neg hc]
        push_neg at hc
        have hm : 0 ≤ 1 / (e.r * sr) * e.env := mul_nonneg (le_of_lt hdec) henv0
        constructor
        · simp only []; linarith
        · simp only []; linarith
  · intro hst
    set N : Nat := ⌈(1249 : ℚ) * e.r * sr⌉₊ + 1 with hN
    rcases adsr_release_invariant sr hsr e hst hr henv0 henv1 N with
      hdone | ⟨_, _, heN0, _, hbound, hlate⟩
    · exact hdone
    · exfalso
      have hNge : (1249 : ℚ) * e.r * sr + 1 ≤ (N : ℚ) := by
        rw [hN]
        push_cast
        have := Nat.le_ceil ((1249 : ℚ) * e.r * sr)
        linarith
      have hgt : 8 / 10000 < (adsr_iter sr N e).env := hlate (by omega)
      have hkpos : 0 < 1 / (e.r * sr) := by positivity
      have hfacpos : 0 < 1 + (N : ℚ) * (1 / (e.r * sr)) := by positivity
      have h1 : (8 / 10000 : ℚ) * (1 + (N : ℚ) * (1 / (e.r * sr)))
          < (adsr_iter sr N e).env * (1 + (N : ℚ) * (1 / (e.r * sr))) :=
        mul_lt_mul_of_pos_right hgt hfacpos
      have h2 : (8 / 10000 : ℚ) * (1 + (N : ℚ) * (1 / (e.r * sr))) < 1 := lt_of_lt_of_le h1 hbound
      have h3 : (N : ℚ) * (1 / (e.r * sr)) < 1249 := by linarith
      have hrs : 0 < e.r * sr := by positivity
      have h4 : (N : ℚ) < 1249 * (e.r * sr) := by
        have := mul_lt_mul_of_pos_right h3 hrs
        calc (N : ℚ) = (N : ℚ) * (1 / (e.r * sr)) * (e.r * sr) := by field_simp
          _ < 1249 * (e.r * sr) := this
      have : (1249 : ℚ) * e.r * sr = 1249 * (e.r * sr) := by ring
      linarith

/-- Witness for C4: a released envelope at `env = 1/2` with one-second
release at sample rate 2. -/
theorem adsr_bounded_and_release_terminates_witness :
    (0 : ℚ) < 2 ∧ 0 < adsrSample.a ∧ 0 < adsrSample.d ∧
    0 ≤ adsrSample.s ∧ adsrSample.s ≤ 1 ∧ 0 < adsrSample.r ∧
    0 ≤ adsrSample.env ∧ adsrSample.env ≤ 1 ∧
    ((0 ≤ (adsr_step 2 adsrSample).env ∧ (adsr_step 2 adsrSample).env ≤ 1) ∧
     (adsrSample.st = EnvState.release →
       (adsr_iter 2 (⌈(1249 : ℚ) * adsrSample.r * 2⌉₊ + 1) adsrSample).st = EnvState.idle ∧
       (adsr_iter 2 (⌈(1249 : ℚ) * adsrSample.r * 2⌉₊ + 1) adsrSample).env = 0)) :=
  ⟨by norm_num, by norm_num [adsrSample], by norm_num [adsrSample], by norm_num [adsrSample],
   by norm_num [adsrSample], by norm_num [adsrSample], by norm_num [adsrSample],
   by norm_num [adsrSample],
   adsr_bounded_and_release_terminates 2 adsrSample (by norm_num)
     (by norm_num [adsrSample]) (by norm_num [adsrSample]) (by norm_num [adsrSample])
     (by norm_num [adsrSample]) (by norm_num [adsrSample]) (by norm_num [adsrSample])
     (by norm_num [adsrSample])⟩

theorem pluck_allocIdx_spec (p : PluckPool)
    (henv : ∀ i : Fin 4, (p.v i).eg.env < 1000000000) :
    ∃ i : Fin 4, pluck_allocIdx p = some i ∧
      (((p.v i).active = false ∧ ∀ j : Fin 4, j < i → (p.v j).active = true) ∨
       ((∀ j : Fin 4, (p.v j).active = true) ∧
        ∀ j : Fin 4, (p.v i).eg.env ≤ (p.v j).eg.env)) := by
  unfold pluck_allocIdx
  by_cases h0 : (p.v 0).active = false
  · rw [if_pos h0]
    refine ⟨0, rfl, Or.inl ⟨h0, ?_⟩⟩
    intro j hj
    exact absurd hj (by simp [Fin.lt_def])
  · rw [if_neg h0]
    have h0' : (p.v 0).active = true := by simpa using h0
    by_cases h1 : (p.v 1).active = false
    · rw [if_pos h1]
      refine ⟨1, rfl, Or.inl ⟨h1, ?_⟩⟩
      intro j hj
      fin_cases j
      · exact h0'
      · exact absurd hj (by decide)
      · exact absurd hj (by decide)
      · exact absurd hj (by decide)
    · rw [if_neg h1]
      have h1' : (p.v 1).active = true := by simpa using h1
      by_cases h2 : (p.v 2).active = false
      · rw [if_pos h2]
        refine ⟨2, rfl, Or.inl ⟨h2, ?_⟩⟩
        intro j hj
        fin_cases j
        · exact h0'
        · exact h1'
        · exact absurd hj (by decide)
        · exact absurd hj (by decide)
      · rw [if_neg h2]
        have h2' : (p.v 2).active = true := by simpa using h2
        by_cases h3 : (p.v 3).active = false
        · rw [if_pos h3]
          refine ⟨3, rfl, Or.inl ⟨h3, ?_⟩⟩
          intro j hj
          fin_cases j
          · exact h0'
          · exact h1'
          · exact h2'
          · exact absurd hj (by decide)
        · rw [if_neg h3]
          have h3' : (p.v 3).active = true := by simpa using h3
          have hall : ∀ j : Fin 4, (p.v j).active = true := by
            intro j; fin_cases j <;> assumption
          have hs0 : stealStep p (none, 1000000000) 0 = (some 0, (p.v 0).eg.env) := by
            unfold stealStep
            rw [if_pos]
            exact henv 0
          rw [hs0]
          by_cases c1 : (p.v 1).eg.env < (p.v 0).eg.env
          · have hs1 : stealStep p (some 0, (p.v 0).eg.env) 1 = (some 1, (p.v 1).eg.env) := by
              unfold stealStep; rw [if_pos c1]
            rw [hs1]
            by_cases c2 : (p.v 2).eg.env < (p.v 1).eg.env
            · have hs2 : stealStep p (some 1, (p.v 1).eg.env) 2 = (some 2, (p.v 2).eg.env) := by
                unfold stealStep; rw [if_pos c2]
              rw [hs2]
              by_cases c3 : (p.v 3).eg.env < (p.v 2).eg.env
              · have hs3 : stealStep p (some 2, (p.v 2).eg.env) 3 = (some 3, (p.v 3).eg.env) := by
                  unfold stealStep; rw [if_pos c3]
                rw [hs3]
                refine ⟨3, rfl, Or.inr ⟨hall, ?_⟩⟩
                intro j; fin_cases j <;> simp <;> linarith
              · have hs3 : stealStep p (some 2, (p.v 2).eg.env) 3 = (some 2, (p.v 2).eg.env) := by
                  unfold stealStep; rw [if_neg c3]
                rw [hs3]
                refine ⟨2, rfl, Or.inr ⟨hall, ?_⟩⟩
                intro j; fin_cases j <;> simp <;> linarith
            · have hs2 : stealStep p (some 1, (p.v 1).eg.env) 2 = (some 1, (p.v 1).eg.env) := by
                unfold stealStep; rw [if_neg c2]
              rw [hs2]
              by_cases c3 : (p.v 3).eg.env < (p.v 1).eg.env
              · have hs3 : stealStep p (some 1, (p.v 1).eg.env) 3 = (some 3, (p.v 3).eg.env) := by
                  unfold stealStep; rw [if_pos c3]
                rw [hs3]
                refine ⟨3, rfl, Or.inr ⟨hall, ?_⟩⟩
                intro j; fin_cases j <;> simp <;> linarith
              · have hs3 : stealStep p (some 1, (p.v 1).eg.env) 3 = (some 1, (p.v 1).eg.env) := by
                  unfold stealStep; rw [if_neg c3]
                rw [hs3]
                refine ⟨1, rfl, Or.inr ⟨hall, ?_⟩⟩
                intro j; fin_cases j <;> simp <;> linarith
          · have hs1 : stealStep p (some 0, (p.v 0).eg.env) 1 = (some 0, (p.v 0).eg.env) := by
              unfold stealStep; rw [if_neg c1]
            rw [hs1]
            by_cases c2 : (p.v 2).eg.env < (p.v 0).eg.env
            · have hs2 : stealStep p (some 0, (p.v 0).eg.env) 2 = (some 2, (p.v 2).eg.env) := by
                unfold stealStep; rw [if_pos c2]
              rw [hs2]
              by_cases c3 : (p.v 3).eg.env < (p.v 2).eg.env
              · have hs3 : stealStep p (some 2, (p.v 2).eg.env) 3 = (some 3, (p.v 3).eg.env) := by
                  unfold stealStep; rw [if_pos c3]
                rw [hs3]
                refine ⟨3, rfl, Or.inr ⟨hall, ?_⟩⟩
                intro j; fin_cases j <;> simp <;> linarith
              · have hs3 : stealStep p (some 2, (p.v 2).eg.env) 3 = (some 2, (p.v 2).eg.env) := by
                  unfold stealStep; rw [if_neg c3]
                rw [hs3]
                refine ⟨2, rfl, Or.inr ⟨hall, ?_⟩⟩
                intro j; fin_cases j <;> simp <;> linarith
            · have hs2 : stealStep p (some 0, (p.v 0).eg.env) 2 = (some 0, (p.v 0).eg.env) := by
                unfold stealStep; rw [if_neg c2]
              rw [hs2]
              by_cases c3 : (p.v 3).eg.env < (p.v 0).eg.env
              · have hs3 : stealStep p (some 0, (p.v 0).eg.env) 3 = (some 3, (p.v 3).eg.env) := by
                  unfold stealStep; rw [if_pos c3]
                rw [hs3]
                refine ⟨3, rfl, Or.inr ⟨hall, ?_⟩⟩
                intro j; fin_cases j <;> simp <;> linarith
              · have hs3 : stealStep p (some 0, (p.v 0).eg.env) 3 = (some 0, (p.v 0).eg.env) := by
                  unfold stealStep; rw [if_neg c3]
                rw [hs3]
                refine ⟨0, rfl, Or.inr ⟨hall, ?_⟩⟩
                intro j; fin_cases j <;> simp <;> linarith

/-- C3: `pluck_noteOn` never fails — for every note and velocity it
activates exactly one voice of the 4-voice pool (every other voice is
untouched), choosing the first inactive voice if one exists and otherwise
the voice with the lowest current envelope value (quietest-voice
stealing); the chosen voice is reset to phase 0, envelope 0, state
Attack, with the note quantized to the current scale. -/
theorem pluck_noteOn_spec (scale : Nat) (p : PluckPool) (midi : ℤ) (vel : ℚ)
    (hin : p.inited = true)
    (henv : ∀ i : Fin 4, (p.v i).eg.env < 1000000000) :
    ∃ i : Fin 4,
      ((pluck_noteOn scale p midi vel).v i).active = true ∧
      ((pluck_noteOn scale p midi vel).v i).eg.st = EnvState.attack ∧
      ((pluck_noteOn scale p midi vel).v i).eg.env = 0 ∧
      ((pluck_noteOn scale p midi vel).v i).phase = 0 ∧
      ((pluck_noteOn scale p midi vel).v i).midi = quantizeMidi midi scale ∧
      (∀ j : Fin 4, j ≠ i → (pluck_noteOn scale p midi vel).v j = p.v j) ∧
      (((p.v i).active = false ∧ ∀ j : Fin 4, j < i → (p.v j).active = true) ∨
       ((∀ j : Fin 4, (p.v j).active = true) ∧
        ∀ j : Fin 4, (p.v i).eg.env ≤ (p.v j).eg.env)) := by
  obtain ⟨i, halloc, hprop⟩ := pluck_allocIdx_spec p henv
  have hbody : pluck_noteOn scale p midi vel =
      { p with
        v := Function.update p.v i
          { active := true, midi := quantizeMidi midi scale, phase := 0,
            vel := if vel < 0 then 0 else if vel > 1 then 1 else vel,
            eg := { (p.v i).eg with env := 0, st := EnvState.attack, gate := false } } } := by
    unfold pluck_noteOn pluck_noteOn_body
    rw [if_pos hin, halloc]
  refine ⟨i, ?_, ?_, ?_, ?_, ?_, ?_, hprop⟩
  · rw [hbody]; simp
  · rw [hbody]; simp
  · rw [hbody]; simp
  · rw [hbody]; simp
  · rw [hbody]; simp
  · intro j hj
    rw [hbody]
    simp [Function.update_noteq hj]

/-- Witness for C3: a pool with all four voices active where voice 1 has
the lowest envelope. -/
theorem pluck_noteOn_spec_witness :
    pluckSample.inited = true ∧
    (∀ i : Fin 4, (pluckSample.v i).eg.env < 1000000000) ∧
    (∃ i : Fin 4,
      ((pluck_noteOn 1 pluckSample 70 (1 / 2)).v i).active = true ∧
      ((pluck_noteOn 1 pluckSample 70 (1 / 2)).v i).eg.st = EnvState.attack ∧
      ((pluck_noteOn 1 pluckSample 70 (1 / 2)).v i).eg.env = 0 ∧
      ((pluck_noteOn 1 pluckSample 70 (1 / 2)).v i).phase = 0 ∧
      ((pluck_noteOn 1 pluckSample 70 (1 / 2)).v i).midi = quantizeMidi 70 1 ∧
      (∀ j : Fin 4, j ≠ i → (pluck_noteOn 1 pluckSample 70 (1 / 2)).v j = pluckSample.v j) ∧
      (((pluckSample.v i).active = false ∧
        ∀ j : Fin 4, j < i → (pluckSample.v j).active = true) ∨
       ((∀ j : Fin 4, (pluckSample.v j).active = true) ∧
        ∀ j : Fin 4, (pluckSample.v i).eg.env ≤ (pluckSample.v j).eg.env))) :=
  ⟨rfl, by intro i; fin_cases i <;> norm_num [pluckSample, Fin.ext_iff],
   pluck_noteOn_spec 1 pluckSample 70 (1 / 2) rfl
     (by intro i; fin_cases i <;> norm_num [pluckSample, Fin.ext_iff])⟩

theorem space_t_mem (pct : ℤ) : 0 ≤ space_t pct ∧ space_t pct ≤ 1 := by
  unfold space_t
  split_ifs with h1 h2
  · norm_num
  · norm_num
  · push_neg at h1 h2
    have hq1 : (0 : ℚ) < (pct : ℚ) := by exact_mod_cast h1
    have hq2 : (pct : ℚ) < 100 := by exact_mod_cast h2
    constructor <;> nlinarith

theorem sqrt_k_le_one (pct : ℤ) (k : ℚ) (hk : 0 ≤ k) (hsq : k * k = space_t pct) :
    k ≤ 1 := by
  have h := space_t_mem pct
  nlinarith [h.1, h.2]

theorem ratTrunc_bound (x : ℚ) (h0 : -1 ≤ x) (h1 : x ≤ 1) :
    -32767 ≤ ratTrunc (x * 32767) ∧ ratTrunc (x * 32767) ≤ 32767 := by
  unfold ratTrunc
  by_cases hx : 0 ≤ x * 32767
  · rw [if_pos hx]
    constructor
    · have := Int.floor_nonneg.mpr hx
      omega
    · have hle : ⌊x * 32767⌋ ≤ ⌊(32767 : ℚ)⌋ := Int.floor_le_floor (by nlinarith)
      have : ⌊(32767 : ℚ)⌋ = 32767 := by norm_num
      omega
  · rw [if_neg hx]
    push_neg at hx
    constructor
    · have hle : ⌊-(x * 32767)⌋ ≤ ⌊(32767 : ℚ)⌋ := Int.floor_le_floor (by nlinarith)
      have : ⌊(32767 : ℚ)⌋ = 32767 := by norm_num
      omega
    · have : (0 : ℤ) ≤ ⌊-(x * 32767)⌋ := Int.floor_nonneg.mpr (by linarith)
      omega

theorem delay_writeVal_mem (dl : Delay) (dry : ℚ) :
    -1 ≤ delay_writeVal dl dry ∧ delay_writeVal dl dry ≤ 1 := by
  simp only [delay_writeVal]
  split_ifs with h1 h2 h3 <;> constructor <;> linarith

theorem delay_step_buf_bound (dl : Delay) (dry : ℚ)
    (hbuf : ∀ i : Fin 32768, -32767 ≤ dl.buf i ∧ dl.buf i ≤ 32767) :
    ∀ i : Fin 32768,
      -32767 ≤ (delay_step dl dry).1.buf i ∧ (delay_step dl dry).1.buf i ≤ 32767 := by
  intro i
  unfold delay_step
  by_cases hin : dl.inited = false
  · rw [if_pos hin]
    exact hbuf i
  · rw [if_neg hin]
    show -32767 ≤ Function.update dl.buf _ _ i ∧ Function.update dl.buf _ _ i ≤ 32767
    have hmem := delay_writeVal_mem dl dry
    have hq := ratTrunc_bound (delay_writeVal dl dry) hmem.1 hmem.2
    rcases eq_or_ne i ⟨dl.w % 32768, Nat.mod_lt _ (by norm_num)⟩ with he | hne
    · rw [he, Function.update_same]
      exact hq
    · rw [Function.update_noteq hne]
      exact hbuf i

theorem delay_fold_buf_bound :
    ∀ (ins : List ℚ) (dl : Delay),
      (∀ i : Fin 32768, -32767 ≤ dl.buf i ∧ dl.buf i ≤ 32767) →
      ∀ i : Fin 32768,
        -32767 ≤ (ins.foldl (fun st x => (delay_step st x).1) dl).buf i ∧
        (ins.foldl (fun st x => (delay_step st x).1) dl).buf i ≤ 32767 := by
  intro ins
  induction ins with
  | nil => intro dl h i; exact h i
  | cons x xs ih =>
    intro dl h i
    exact ih (delay_step dl x).1 (delay_step_buf_bound dl x h) i

/-- C5: for every space percentage (including out-of-range values) and
every exact square root `k` of the clamped space fraction, the delay
feedback set by `delay_set_space` is capped at `0.6` and the reverb comb
feedback set by `reverb_set_space` is capped at `0.75` — both strictly
below 1 — and every value `delay_step` writes into the ring buffer is
clamped to `[-1, 1]` before int16 quantization, so from any in-range
buffer state and any input sequence the stored values stay within
`[-32767, 32767]`, i.e. within `[-1, 1]` after the `1/32767` scaling,
forever. -/
theorem feedback_safety (pct : ℤ) (k : ℚ) (hk : 0 ≤ k) (hsq : k * k = space_t pct)
    (dl : Delay) (rv : ReverbLite) (ins : List ℚ)
    (hbuf : ∀ i : Fin 32768, -32767 ≤ dl.buf i ∧ dl.buf i ≤ 32767) :
    ((delay_set_space_k dl k).fb ≤ 6 / 10 ∧ (delay_set_space_k dl k).fb < 1) ∧
    (∀ i : Fin 4, ((reverb_set_space_k rv k).comb i).fb ≤ 75 / 100 ∧
      ((reverb_set_space_k rv k).comb i).fb < 1) ∧
    (∀ i : Fin 32768,
      -32767 ≤ (ins.foldl (fun st x => (delay_step st x).1) dl).buf i ∧
      (ins.foldl (fun st x => (delay_step st x).1) dl).buf i ≤ 32767 ∧
      -1 ≤ ((ins.foldl (fun st x => (delay_step st x).1) dl).buf i : ℚ) * (1 / 32767) ∧
      ((ins.foldl (fun st x => (delay_step st x).1) dl).buf i : ℚ) * (1 / 32767) ≤ 1) := by
  have hk1 : k ≤ 1 := sqrt_k_le_one pct k hk hsq
  refine ⟨?_, ?_, ?_⟩
  · unfold delay_set_space_k
    constructor
    · simp only []
      split_ifs with h
      · linarith
      · linarith
    · simp only []
      split_ifs with h
      · linarith
      · linarith
  · intro i
    unfold reverb_set_space_k
    constructor
    · simp only []
      split_ifs with h
      · linarith
      · linarith
    · simp only []
      split_ifs with h
      · linarith
      · linarith
  · intro i
    have h := delay_fold_buf_bound ins dl hbuf i
    refine ⟨h.1, h.2, ?_, ?_⟩
    · have : (-32767 : ℚ) ≤ ((ins.foldl (fun st x => (delay_step st x).1) dl).buf i : ℚ) := by
        exact_mod_cast h.1
      linarith
    · have : ((ins.foldl (fun st x => (delay_step st x).1) dl).buf i : ℚ) ≤ 32767 := by
        exact_mod_cast h.2
      linarith

/-- Witness for C5 at space 25% (exact root 1/2), a zeroed buffer, and a
two-sample input burst. -/
theorem feedback_safety_witness :
    (0 : ℚ) ≤ 1 / 2 ∧ (1 / 2 : ℚ) * (1 / 2) = space_t 25 ∧
    (∀ i : Fin 32768, -32767 ≤ delaySample.buf i ∧ delaySample.buf i ≤ 32767) ∧
    (((delay_set_space_k delaySample (1 / 2)).fb ≤ 6 / 10 ∧
      (delay_set_space_k delaySample (1 / 2)).fb < 1) ∧
     (∀ i : Fin 4, ((reverb_set_space_k reverbSample (1 / 2)).comb i).fb ≤ 75 / 100 ∧
       ((reverb_set_space_k reverbSample (1 / 2)).comb i).fb < 1) ∧
     (∀ i : Fin 32768,
       -32767 ≤ ([(1 : ℚ), -1/2].foldl (fun st x => (delay_step st x).1) delaySample).buf i ∧
       ([(1 : ℚ), -1/2].foldl (fun st x => (delay_step st x).1) delaySample).buf i ≤ 32767 ∧
       -1 ≤ (([(1 : ℚ), -1/2].foldl (fun st x => (delay_step st x).1) delaySample).buf i : ℚ)
         * (1 / 32767) ∧
       (([(1 : ℚ), -1/2].foldl (fun st x => (delay_step st x).1) delaySample).buf i : ℚ)
         * (1 / 32767) ≤ 1)) :=
  ⟨by norm_num, by norm_num [space_t], by intro i; norm_num [delaySample],
   feedback_safety 25 (1 / 2) (by norm_num) (by norm_num [space_t]) delaySample
     reverbSample [(1 : ℚ), -1/2] (by intro i; norm_num [delaySample])⟩

/-- C7: with the space percentage set to 0, the delay send, wet and
feedback and the reverb send and wet are all exactly 0, so the render
loop's per-sample output `dry + (delay.wet*tap + reverb.wet*rev)*CTR`
equals the dry signal exactly, whatever the wet taps hold. -/
theorem space_zero_identity (k : ℚ) (hk : 0 ≤ k) (hsq : k * k = space_t 0)
    (dl : Delay) (rv : ReverbLite) :
    (delay_set_space_k dl k).send = 0 ∧ (delay_set_space_k dl k).wet = 0 ∧
    (delay_set_space_k dl k).fb = 0 ∧
    (reverb_set_space_k rv k).send = 0 ∧ (reverb_set_space_k rv k).wet = 0 ∧
    ∀ dryMono wetTap wetRev : ℚ,
      mix_out dryMono wetTap wetRev
        (delay_set_space_k dl k).wet (reverb_set_space_k rv k).wet = dryMono := by
  have hs0 : space_t 0 = 0 := by norm_num [space_t]
  have hk0 : k = 0 := by
    have h : k * k = 0 := by rw [hsq, hs0]
    exact mul_self_eq_zero.mp h
  subst hk0
  refine ⟨?_, ?_, ?_, ?_, ?_, ?_⟩ <;>
    norm_num [delay_set_space_k, reverb_set_space_k, mix_out, CTRq]

/-- Witness for C7: the zero space percentage with its exact root `k = 0`. -/
theorem space_zero_identity_witness :
    (0 : ℚ) ≤ 0 ∧ (0 : ℚ) * 0 = space_t 0 ∧
    ((delay_set_space_k delaySample 0).send = 0 ∧
     (delay_set_space_k delaySample 0).wet = 0 ∧
     (delay_set_space_k delaySample 0).fb = 0 ∧
     (reverb_set_space_k reverbSample 0).send = 0 ∧
     (reverb_set_space_k reverbSample 0).wet = 0 ∧
     ∀ dryMono wetTap wetRev : ℚ,
       mix_out dryMono wetTap wetRev
         (delay_set_space_k delaySample 0).wet
         (reverb_set_space_k reverbSample 0).wet = dryMono) :=
  ⟨le_refl 0, by norm_num [space_t],
   space_zero_identity 0 (le_refl 0) (by norm_num [space_t]) delaySample reverbSample⟩

theorem scene_t_start (tStart tEnd : Nat) (hw : tStart < tEnd) :
    scene_t tStart tEnd tStart = 0 := by
  unfold scene_t
  rw [if_pos hw, min_eq_left (le_of_lt hw)]
  simp

theorem scene_t_end (tStart tEnd : Nat) (hw : tStart < tEnd) :
    scene_t tStart tEnd tEnd = 1 := by
  unfold scene_t
  rw [if_pos hw, min_self]
  have hne : ((tEnd - tStart : ℕ) : ℝ) ≠ 0 := by
    have : tEnd - tStart ≠ 0 := by omega
    exact_mod_cast this
  exact div_self hne

theorem smoothstepC_zero : smoothstepC 0 = 0 := by
  unfold smoothstepC; norm_num

theorem smoothstepC_one : smoothstepC 1 = 1 := by
  unfold smoothstepC; norm_num

theorem lerpR_zero (a b : ℝ) : lerpR a b 0 = a := by unfold lerpR; ring

theorem lerpR_one (a b : ℝ) : lerpR a b 1 = b := by unfold lerpR; ring

theorem expLerp_zero (a b : ℝ) (ha : 0 < a) : expLerp a b 0 = a := by
  unfold expLerp
  rw [lerpR_zero]
  exact Real.exp_log ha

theorem expLerp_one (a b : ℝ) (hb : 0 < b) : expLerp a b 1 = b := by
  unfold expLerp
  rw [lerpR_one]
  exact Real.exp_log hb

theorem truncIntR_int_half (z : ℤ) (hz : 0 ≤ z) :
    truncIntR ((z : ℝ) + 1 / 2) = z := by
  unfold truncIntR
  have hnn : (0 : ℝ) ≤ (z : ℝ) + 1 / 2 := by
    have : (0 : ℝ) ≤ (z : ℝ) := by exact_mod_cast hz
    linarith
  rw [if_pos hnn]
  rw [Int.floor_int_add]
  norm_num

/-- C6: while a scene crossfade is active every interpolated parameter is
a function of the elapsed fraction through the smoothstep easing
`e = t²(3−2t)`; at `t = 0` (`now = tStart`) the ramp reproduces exactly
the snapshotted start values and keeps the fade active, and at `t = 1`
(`now = tEnd`) it yields exactly the target values — triMix linearly,
space and tempo by rounded linear interpolation, the filter cutoff in log
space as `exp(lerp(log a, log b, e))` — and deactivates the crossfade. -/
theorem scene_crossfade_endpoints (start target : SceneVals) (tStart tEnd : Nat)
    (hw : tStart < tEnd)
    (ha : 0 < start.lpfCutHz) (hb : 0 < target.lpfCutHz)
    (hs0 : 0 ≤ start.spacePercent) (hs100 : start.spacePercent ≤ 100)
    (hp0 : 0 ≤ target.spacePercent) (hp100 : target.spacePercent ≤ 100)
    (hq30 : 30 ≤ start.tempoBPM) (hq240 : start.tempoBPM ≤ 240)
    (hc30 : 30 ≤ target.tempoBPM) (hc240 : target.tempoBPM ≤ 240) :
    (∀ u : ℝ, 0 ≤ u → u ≤ 1 → smoothstepC u = u ^ 2 * (3 - 2 * u)) ∧
    ((scene_apply start target tStart tEnd tStart).1.triMix = start.triMix ∧
     (scene_apply start target tStart tEnd tStart).1.lpfCutHz = start.lpfCutHz ∧
     (scene_apply start target tStart tEnd tStart).1.spacePercent = start.spacePercent ∧
     (scene_apply start target tStart tEnd tStart).1.tempoBPM = start.tempoBPM ∧
     (scene_apply start target tStart tEnd tStart).1.scale = start.scale ∧
     (scene_apply start target tStart tEnd tStart).1.delayMode = start.delayMode ∧
     (scene_apply start target tStart tEnd tStart).2) ∧
    ((scene_apply start target tStart tEnd tEnd).1.triMix = target.triMix ∧
     (scene_apply start target tStart tEnd tEnd).1.lpfCutHz = target.lpfCutHz ∧
     (scene_apply start target tStart tEnd tEnd).1.spacePercent = target.spacePercent ∧
     (scene_apply start target tStart tEnd tEnd).1.tempoBPM = target.tempoBPM ∧
     (scene_apply start target tStart tEnd tEnd).1.scale = target.scale ∧
     (scene_apply start target tStart tEnd tEnd).1.delayMode = target.delayMode ∧
     ¬ (scene_apply start target tStart tEnd tEnd).2) := by
  refine ⟨?_, ?_, ?_⟩
  · intro u h0 h1
    unfold smoothstepC
    rw [min_eq_right h1, max_eq_right h0]
    ring
  · simp only [scene_apply, scene_t_start tStart tEnd hw, smoothstepC_zero,
      lerpR_zero, expLerp_zero _ _ ha]
    refine ⟨trivial, trivial, ?_, ?_, ?_, ?_, ?_⟩
    · rw [truncIntR_int_half _ hs0]
      rw [if_neg (by omega), if_neg (by omega)]
    · rw [truncIntR_int_half _ (by omega : (0 : ℤ) ≤ start.tempoBPM)]
      rw [if_neg (by omega), if_neg (by omega)]
    · rw [if_neg (by norm_num : ¬ ((2 / 10 : ℝ) ≤ 0))]
    · rw [if_neg (by norm_num : ¬ ((8 / 10 : ℝ) ≤ 0))]
    · norm_num
  · simp only [scene_apply, scene_t_end tStart tEnd hw, smoothstepC_one,
      lerpR_one, expLerp_one _ _ hb]
    refine ⟨trivial, trivial, ?_, ?_, ?_, ?_, ?_⟩
    · rw [truncIntR_int_half _ hp0]
      rw [if_neg (by omega), if_neg (by omega)]
    · rw [truncIntR_int_half _ (by omega : (0 : ℤ) ≤ target.tempoBPM)]
      rw [if_neg (by omega), if_neg (by omega)]
    · rw [if_pos (by norm_num : (2 / 10 : ℝ) ≤ 1)]
    · rw [if_pos (by norm_num : (8 / 10 : ℝ) ≤ 1)]
    · intro hcon
      exact hcon le_rfl

/-- Witness for C6: a 10-second crossfade (samples 0 to 441000) between
two concrete scenes, sampled at its two endpoints. -/
theorem scene_crossfade_endpoints_witness :
    (0 : Nat) < 441000 ∧
    (0 : ℝ) < sceneStartSample.lpfCutHz ∧ (0 : ℝ) < sceneTargetSample.lpfCutHz ∧
    (0 ≤ sceneStartSample.spacePercent ∧ sceneStartSample.spacePercent ≤ 100) ∧
    (0 ≤ sceneTargetSample.spacePercent ∧ sceneTargetSample.spacePercent ≤ 100) ∧
    (30 ≤ sceneStartSample.tempoBPM ∧ sceneStartSample.tempoBPM ≤ 240) ∧
    (30 ≤ sceneTargetSample.tempoBPM ∧ sceneTargetSample.tempoBPM ≤ 240) ∧
    ((∀ u : ℝ, 0 ≤ u → u ≤ 1 → smoothstepC u = u ^ 2 * (3 - 2 * u)) ∧
     ((scene_apply sceneStartSample sceneTargetSample 0 441000 0).1.triMix
        = sceneStartSample.triMix ∧
      (scene_apply sceneStartSample sceneTargetSample 0 441000 0).1.lpfCutHz
        = sceneStartSample.lpfCutHz ∧
      (scene_apply sceneStartSample sceneTargetSample 0 441000 0).1.spacePercent
        = sceneStartSample.spacePercent ∧
      (scene_apply sceneStartSample sceneTargetSample 0 441000 0).1.tempoBPM
        = sceneStartSample.tempoBPM ∧
      (scene_apply sceneStartSample sceneTargetSample 0 441000 0).1.scale
        = sceneStartSample.scale ∧
      (scene_apply sceneStartSample sceneTargetSample 0 441000 0).1.delayMode
        = sceneStartSample.delayMode ∧
      (scene_apply sceneStartSample sceneTargetSample 0 441000 0).2) ∧
     ((scene_apply sceneStartSample sceneTargetSample 0 441000 441000).1.triMix
        = sceneTargetSample.triMix ∧
      (scene_apply sceneStartSample sceneTargetSample 0 441000 441000).1.lpfCutHz
        = sceneTargetSample.lpfCutHz ∧
      (scene_apply sceneStartSample sceneTargetSample 0 441000 441000).1.spacePercent
        = sceneTargetSample.spacePercent ∧
      (scene_apply sceneStartSample sceneTargetSample 0 441000 441000).1.tempoBPM
        = sceneTargetSample.tempoBPM ∧
      (scene_apply sceneStartSample sceneTargetSample 0 441000 441000).1.scale
        = sceneTargetSample.scale ∧
      (scene_apply sceneStartSample sceneTargetSample 0 441000 441000).1.delayMode
        = sceneTargetSample.delayMode ∧
      ¬ (scene_apply sceneStartSample sceneTargetSample 0 441000 441000).2)) :=
  ⟨by norm_num, by norm_num [sceneStartSample], by norm_num [sceneTargetSample],
   by norm_num [sceneStartSample], by norm_num [sceneTargetSample],
   by norm_num [sceneStartSample], by norm_num [sceneTargetSample],
   scene_crossfade_endpoints sceneStartSample sceneTargetSample 0 441000
     (by norm_num) (by norm_num [sceneStartSample]) (by norm_num [sceneTargetSample])
     (by norm_num [sceneStartSample]) (by norm_num [sceneStartSample])
     (by norm_num [sceneTargetSample]) (by norm_num [sceneTargetSample])
     (by norm_num [sceneStartSample]) (by norm_num [sceneStartSample])
     (by norm_num [sceneTargetSample]) (by norm_num [sceneTargetSample])⟩

theorem list_getD_mem (l : List ℤ) (n : Nat) (d : ℤ) (h : n < l.length) :
    l.getD n d ∈ l := by
  induction l generalizing n with
  | nil => simp at h
  | cons a t ih =>
    cases n with
    | zero => simp [List.getD]
    | succ m =>
      have hm : m < t.length := by simpa using h
      have : (a :: t).getD (m + 1) d = t.getD m d := by simp [List.getD]
      rw [this]
      exact List.mem_cons_of_mem a (ih m hm)

theorem clamp36_96 (x : ℤ) :
    (if (if x < 36 then 36 else x) > 96 then 96 else (if x < 36 then 36 else x))
      = min 96 (max 36 x) := by
  split_ifs <;> omega

set_option maxRecDepth 10000 in
set_option maxHeartbeats 1000000 in
theorem quantizeMidi_register_mem :
    ∀ s : Nat, s < 4 → ∀ k : Nat, k < 61 → scaleHasPC s (quantizeMidi (36 + (k : ℤ)) s) := by
  decide

theorem quantizeMidi_mem_of_range (s : Nat) (hs : s < 4) (m : ℤ)
    (h36 : 36 ≤ m) (h96 : m ≤ 96) : scaleHasPC s (quantizeMidi m s) := by
  obtain ⟨k, hk, rfl⟩ : ∃ k : Nat, k < 61 ∧ m = 36 + (k : ℤ) :=
    ⟨(m - 36).toNat, by omega, by omega⟩
  exact quantizeMidi_register_mem s hs k hk

set_option maxRecDepth 4000 in
theorem buildPool_props :
    ∀ s : Nat, s < 4 →
      0 < (buildPool s).length ∧ ∀ m ∈ buildPool s, scaleHasPC s m ∧ 36 ≤ m ∧ m ≤ 96 := by
  decide

/-- C8 (amended): behavior of `pickAmbientNote` with the pool as actually
built (octaves 2–6 over root+degrees, filtered to 36–96).  The pool is
nonempty and every pool note is in scale and in the register; a hold draw
below 10% returns the previous note unchanged; the returned note is
always recorded as the new `last`; the result is always in scale; and in
the non-hold path the note is the uniformly drawn pool candidate
`pool[rng % n]`, plus a wide jump of `+7`/`-5` exactly when the 15% jump
draw fires, plus a `+7`/`-5` nudge exactly when the candidate lands
within 3 semitones of the previous note, clamped to `[36, 96]` and
re-quantized to the scale. -/
theorem pickAmbientNote_amended (s : Nat) (hs : s < 4) (last : ℤ)
    (hlast : scaleHasPC s last) (g : Nat) :
    (0 < (buildPool s).length ∧ ∀ m ∈ buildPool s, scaleHasPC s m ∧ 36 ≤ m ∧ m ≤ 96) ∧
    ((rng32_next (rng32_next g) : ℚ) * (1 / 4294967296) < 1 / 10 →
      pickAmbientNote s last g = (last, last, rng32_next (rng32_next g))) ∧
    (pickAmbientNote s last g).2.1 = (pickAmbientNote s last g).1 ∧
    scaleHasPC s (pickAmbientNote s last g).1 ∧
    (¬ ((rng32_next (rng32_next g) : ℚ) * (1 / 4294967296) < 1 / 10) →
      ∃ c ∈ buildPool s,
        c = (buildPool s).getD (rng32_next g % (buildPool s).length) 0 ∧
        ∃ j1 j2 : ℤ,
          (((rng32_next (rng32_next (rng32_next g)) : ℚ) * (1 / 4294967296) < 15 / 100)
            ↔ (j1 = 7 ∨ j1 = -5)) ∧
          (j2 = 0 ∨ j2 = 7 ∨ j2 = -5) ∧
          ((|c + j1 - last| < 3) ↔ (j2 = 7 ∨ j2 = -5)) ∧
          (pickAmbientNote s last g).1 = quantizeMidi (min 96 (max 36 (c + j1 + j2))) s) := by
  have hpool := buildPool_props s hs
  by_cases hHold : (rng32_next (rng32_next g) : ℚ) * (1 / 4294967296) < 1 / 10
  · have heq : pickAmbientNote s last g = (last, last, rng32_next (rng32_next g)) := by
      simp only [pickAmbientNote, if_pos hHold]
    exact ⟨hpool, fun _ => heq, by rw [heq], by rw [heq]; exact hlast,
      fun hcon => absurd hHold hcon⟩
  · set c : ℤ := (buildPool s).getD (rng32_next g % (buildPool s).length) 0 with hc
    have hcm : c ∈ buildPool s := by
      rw [hc]
      exact list_getD_mem _ _ _ (Nat.mod_lt _ hpool.1)
    have hmem : ∀ x : ℤ, scaleHasPC s (quantizeMidi (min 96 (max 36 x)) s) := by
      intro x
      exact quantizeMidi_mem_of_range s hs _ (by omega) (by omega)
    by_cases hJump :
        (rng32_next (rng32_next (rng32_next g)) : ℚ) * (1 / 4294967296) < 15 / 100
    · by_cases hp : rng32_next (rng32_next (rng32_next (rng32_next g))) % 2 = 1
      · by_cases hN : |c + 7 - last| < 3
        · by_cases hp5 :
              rng32_next (rng32_next (rng32_next (rng32_next (rng32_next g)))) % 2 = 1
          · have heq : pickAmbientNote s last g =
                (quantizeMidi (min 96 (max 36 (c + 7 + 7))) s,
                 quantizeMidi (min 96 (max 36 (c + 7 + 7))) s,
                 rng32_next (rng32_next (rng32_next (rng32_next (rng32_next g))))) := by
              rw [hc] at hN ⊢
              simp only [pickAmbientNote, hHold, hJump, hp, hN, hp5, if_true, if_false,
                if_pos, ite_true, ite_false, if_neg, not_false_iff]
              rw [clamp36_96]
            refine ⟨hpool, fun hcon => absurd hcon hHold, by rw [heq], by rw [heq]; exact hmem _,
              fun _ => ⟨c, hcm, hc, 7, 7, iff_of_true hJump (Or.inl rfl), Or.inr (Or.inl rfl),
                iff_of_true hN (Or.inl rfl), by rw [heq]⟩⟩
          · have heq : pickAmbientNote s last g =
                (quantizeMidi (min 96 (max 36 (c + 7 + -5))) s,
                 quantizeMidi (min 96 (max 36 (c + 7 + -5))) s,
                 rng32_next (rng32_next (rng32_next (rng32_next (rng32_next g))))) := by
              rw [hc] at hN ⊢
              simp only [pickAmbientNote, hHold, hJump, hp, hN, hp5, if_true, if_false,
                if_pos, ite_true, ite_false, if_neg, not_false_iff]
              rw [clamp36_96]
            refine ⟨hpool, fun hcon => absurd hcon hHold, by rw [heq], by rw [heq]; exact hmem _,
              fun _ => ⟨c, hcm, hc, 7, -5, iff_of_true hJump (Or.inl rfl),
                Or.inr (Or.inr rfl), iff_of_true hN (Or.inr rfl), by rw [heq]⟩⟩
        · have heq : pickAmbientNote s last g =
              (quantizeMidi (min 96 (max 36 (c + 7))) s,
               quantizeMidi (min 96 (max 36 (c + 7))) s,
               rng32_next (rng32_next (rng32_next (rng32_next g)))) := by
            rw [hc] at hN ⊢
            simp only [pickAmbientNote, hHold, hJump, hp, hN, if_true, if_false,
              if_pos, ite_true, ite_false, if_neg, not_false_iff]
            rw [clamp36_96]
          refine ⟨hpool, fun hcon => absurd hcon hHold, by rw [heq], by rw [heq]; exact hmem _,
            fun _ => ⟨c, hcm, hc, 7, 0, iff_of_true hJump (Or.inl rfl), Or.inl rfl,
              iff_of_false hN (by norm_num), by rw [heq, show c + 7 + (0 : ℤ) = c + 7 from by ring]⟩⟩
      · by_cases hN : |c + -5 - last| < 3
        · by_cases hp5 :
              rng32_next (rng32_next (rng32_next (rng32_next (rng32_next g)))) % 2 = 1
          · have heq : pickAmbientNote s last g =
                (quantizeMidi (min 96 (max 36 (c + -5 + 7))) s,
                 quantizeMidi (min 96 (max 36 (c + -5 + 7))) s,
                 rng32_next (rng32_next (rng32_next (rng32_next (rng32_next g))))) := by
              rw [hc] at hN ⊢
              simp only [pickAmbientNote, hHold, hJump, hp, hN, hp5, if_true, if_false,
                if_pos, ite_true, ite_false, if_neg, not_false_iff]
              rw [clamp36_96]
            refine ⟨hpool, fun hcon => absurd hcon hHold, by rw [heq], by rw [heq]; exact hmem _,
              fun _ => ⟨c, hcm, hc, -5, 7, iff_of_true hJump (Or.inr rfl), Or.inr (Or.inl rfl),
                iff_of_true hN (Or.inl rfl), by rw [heq]⟩⟩
          · have heq : pickAmbientNote s last g =
                (quantizeMidi (min 96 (max 36 (c + -5 + -5))) s,
                 quantizeMidi (min 96 (max 36 (c + -5 + -5))) s,
                 rng32_next (rng32_next (rng32_next (rng32_next (rng32_next g))))) := by
              rw [hc] at hN ⊢
              simp only [pickAmbientNote, hHold, hJump, hp, hN, hp5, if_true, if_false,
                if_pos, ite_true, ite_false, if_neg, not_false_iff]
              rw [clamp36_96]
            refine ⟨hpool, fun hcon => absurd hcon hHold, by rw [heq], by rw [heq]; exact hmem _,
              fun _ => ⟨c, hcm, hc, -5, -5, iff_of_true hJump (Or.inr rfl),
                Or.inr (Or.inr rfl), iff_of_true hN (Or.inr rfl), by rw [heq]⟩⟩
        · have heq : pickAmbientNote s last g =
              (quantizeMidi (min 96 (max 36 (c + -5))) s,
               quantizeMidi (min 96 (max 36 (c + -5))) s,
               rng32_next (rng32_next (rng32_next (rng32_next g)))) := by
            rw [hc] at hN ⊢
            simp only [pickAmbientNote, hHold, hJump, hp, hN, if_true, if_false,
              if_pos, ite_true, ite_false, if_neg, not_false_iff]
            rw [clamp36_96]
          refine ⟨hpool, fun hcon => absurd hcon hHold, by rw [heq], by rw [heq]; exact hmem _,
            fun _ => ⟨c, hcm, hc, -5, 0, iff_of_true hJump (Or.inr rfl), Or.inl rfl,
              iff_of_false hN (by norm_num),
              by rw [heq, show c + -5 + (0 : ℤ) = c + -5 from by ring]⟩⟩
    · by_cases hN : |c - last| < 3
      · by_cases hp4 :
            rng32_next (rng32_next (rng32_next (rng32_next g))) % 2 = 1
        · have heq : pickAmbientNote s last g =
              (quantizeMidi (min 96 (max 36 (c + 7))) s,
               quantizeMidi (min 96 (max 36 (c + 7))) s,
               rng32_next (rng32_next (rng32_next (rng32_next g)))) := by
            rw [hc] at hN ⊢
            simp only [pickAmbientNote, hHold, hJump, hp4, hN, if_true, if_false,
              if_pos, ite_true, ite_false, if_neg, not_false_iff]
            rw [clamp36_96]
          refine ⟨hpool, fun hcon => absurd hcon hHold, by rw [heq], by rw [heq]; exact hmem _,
            fun _ => ⟨c, hcm, hc, 0, 7, iff_of_false hJump (by norm_num),
              Or.inr (Or.inl rfl),
              iff_of_true (by rw [show c + (0 : ℤ) = c from by ring]; exact hN) (Or.inl rfl),
              by rw [heq, show c + (0 : ℤ) + 7 = c + 7 from by ring]⟩⟩
        · have heq : pickAmbientNote s last g =
              (quantizeMidi (min 96 (max 36 (c + -5))) s,
               quantizeMidi (min 96 (max 36 (c + -5))) s,
               rng32_next (rng32_next (rng32_next (rng32_next g)))) := by
            rw [hc] at hN ⊢
            simp only [pickAmbientNote, hHold, hJump, hp4, hN, if_true, if_false,
              if_pos, ite_true, ite_false, if_neg, not_false_iff]
            rw [clamp36_96]
          refine ⟨hpool, fun hcon => absurd hcon hHold, by rw [heq], by rw [heq]; exact hmem _,
            fun _ => ⟨c, hcm, hc, 0, -5, iff_of_false hJump (by norm_num),
              Or.inr (Or.inr rfl),
              iff_of_true (by rw [show c + (0 : ℤ) = c from by ring]; exact hN) (Or.inr rfl),
              by rw [heq, show c + (0 : ℤ) + -5 = c + -5 from by ring]⟩⟩
      · have heq : pickAmbientNote s last g =
            (quantizeMidi (min 96 (max 36 c)) s,
             quantizeMidi (min 96 (max 36 c)) s,
             rng32_next (rng32_next (rng32_next g))) := by
          rw [hc] at hN ⊢
          simp only [pickAmbientNote, hHold, hJump, hN, if_true, if_false,
            if_pos, ite_true, ite_false, if_neg, not_false_iff]
          rw [clamp36_96]
        refine ⟨hpool, fun hcon => absurd hcon hHold, by rw [heq], by rw [heq]; exact hmem _,
          fun _ => ⟨c, hcm, hc, 0, 0, iff_of_false hJump (by norm_num), Or.inl rfl,
            iff_of_false (by rw [show c + (0 : ℤ) = c from by ring]; exact hN) (by norm_num),
            by rw [heq, show c + (0 : ℤ) + 0 = c from by ring]⟩⟩

/-- C8 counterexample: MIDI note 84 has its pitch class in the builtin
C-lydian scale (index 3) and lies in the register 36–96 — so it belongs
to the claim's pool of all in-scale notes in the register
(`allScalePool`) — yet it is not in the pool `pickAmbientNote` actually
draws candidates from, refuting the claim's description of the pool. -/
theorem pickAmbientNote_pool_counterexample :
    scaleHasPC 3 84 ∧ (36 : ℤ) ≤ 84 ∧ (84 : ℤ) ≤ 96 ∧
    84 ∈ allScalePool 3 ∧ 84 ∉ buildPool 3 := by
  decide

/-- Witness for the amended C8 at scale A minor, previous note 60, RNG
state 12345. -/
theorem pickAmbientNote_amended_witness :
    (1 : Nat) < 4 ∧ scaleHasPC 1 60 ∧
    ((0 < (buildPool 1).length ∧ ∀ m ∈ buildPool 1, scaleHasPC 1 m ∧ 36 ≤ m ∧ m ≤ 96) ∧
     ((rng32_next (rng32_next 12345) : ℚ) * (1 / 4294967296) < 1 / 10 →
       pickAmbientNote 1 60 12345 = (60, 60, rng32_next (rng32_next 12345))) ∧
     (pickAmbientNote 1 60 12345).2.1 = (pickAmbientNote 1 60 12345).1 ∧
     scaleHasPC 1 (pickAmbientNote 1 60 12345).1 ∧
     (¬ ((rng32_next (rng32_next 12345) : ℚ) * (1 / 4294967296) < 1 / 10) →
       ∃ c ∈ buildPool 1,
         c = (buildPool 1).getD (rng32_next 12345 % (buildPool 1).length) 0 ∧
         ∃ j1 j2 : ℤ,
           (((rng32_next (rng32_next (rng32_next 12345)) : ℚ) * (1 / 4294967296) < 15 / 100)
             ↔ (j1 = 7 ∨ j1 = -5)) ∧
           (j2 = 0 ∨ j2 = 7 ∨ j2 = -5) ∧
           ((|c + j1 - 60| < 3) ↔ (j2 = 7 ∨ j2 = -5)) ∧
           (pickAmbientNote 1 60 12345).1
             = quantizeMidi (min 96 (max 36 (c + j1 + j2))) 1)) :=
  ⟨by decide, by decide, pickAmbientNote_amended 1 (by decide) 60 (by decide) 12345⟩

/-- C9 (code evaluation at the failing input): the step indices delivered
to `onStep16` by `clock_advance_block` are always `< 16` (`step16` is
masked to `0..15`), so `bar = step / 16` is always `0 = lastBar`, the
redraw branch never runs and the wobble state — including `wob = 1.0` and
the RNG — is left exactly at its initial value over any such step
sequence, instead of being redrawn once per 16 steps as the claim (and
the source's own comment) states. -/
theorem wobble_never_recomputed (steps : List Nat) (g : Nat)
    (hsteps : ∀ x ∈ steps, x < 16) :
    steps.foldl onStep16_wobble (wobbleInit g) = wobbleInit g := by
  induction steps with
  | nil => rfl
  | cons x xs ih =>
    have hx : x < 16 := hsteps x (by simp)
    have hstep : onStep16_wobble (wobbleInit g) x = wobbleInit g := by
      unfold onStep16_wobble wobbleInit
      have hz : x / 16 = 0 := Nat.div_eq_of_lt hx
      simp [hz]
    rw [List.foldl_cons, hstep]
    exact ih (fun y hy => hsteps y (by simp [hy]))

/-- Witness for the C9 evaluation: two full bars (32 clock ticks,
steps 0..15 twice) from the firmware's initial RNG seed leave the wobble
state untouched. -/
theorem wobble_never_recomputed_witness :
    (∀ x ∈ (List.range 32).map (· % 16), x < 16) ∧
    ((List.range 32).map (· % 16)).foldl onStep16_wobble (wobbleInit 2747636419)
      = wobbleInit 2747636419 :=
  ⟨by decide, wobble_never_recomputed _ 2747636419 (by decide)⟩

end Spider
